import Mathlib

/-!
The `wavm` command-line driver (`Source/Programs/wavm.cpp`).

A shallow embedding of `RootResolver::resolve` and `mainBody`, followed by the
properties of the import resolver chain, entry selection, argument marshaling
and result interpretation.

Conventions of the embedding:

* a nullable pointer is an `Option`;
* a C string is the list of its character codes, `char** args` (null
  terminated) is a `List String`;
* `uint32` / `uint64` payloads are naturals reduced modulo `2^32` / `2^64`,
  floating-point payloads are IEEE-754 bit patterns;
* everything `mainBody` and `resolve` do that is visible from outside
  (text on `std::cerr`, log lines, calls into the runtime) is recorded in a
  list of `Event`s next to the returned value;
* the services the file calls but does not define (`IntrinsicResolver`,
  `loadModule`, `linkAndInstantiateModule`, `instantiateModule`,
  `invokeFunction`, `Emscripten::injectCommandArgs`, `asString`, the opcode
  table) are fields of `Host`;
* what a base-10 integer and a decimal floating literal denote, and which
  IEEE-754 pattern is the correctly rounded one, is said by reference notions
  (`IsDecimalInteger`, `twosComplement`, `DecimalLiteral`, `FloatFormat.decode`,
  `FloatFormat.IsNearestEven`) that the conversions `atoi`, `atol`, `atof` and
  the narrowing to `float32` are proved to meet.
-/

namespace Wavm

/-! ## C library functions used by `mainBody` -/

/-- C `isspace` in the "C" locale: space and the control characters 9..13. -/
def isspace (c : Nat) : Bool := c == 32 || (9 ≤ c && c ≤ 13)

/-- C `isdigit`: the characters 0..9. -/
def isdigit (c : Nat) : Bool := 48 ≤ c && c ≤ 57

/-- C `tolower` on ASCII letters. -/
def tolower (c : Nat) : Nat := if 65 ≤ c ∧ c ≤ 90 then c + 32 else c

/-- The character codes of a C string. -/
def cstr (s : String) : List Nat := s.toList.map Char.toNat

/-- Value of the longest run of leading decimal digits, accumulated onto `acc`. -/
def accDigits : List Nat → Nat → Nat
  | [], acc => acc
  | c :: cs, acc => if isdigit c then accDigits cs (acc * 10 + (c - 48)) else acc

/-- C `strtol(s, NULL, 10)` with a 64-bit `long`: optional white space, optional
sign, the longest run of decimal digits (0 when there is none), saturated to
the range of `long`. -/
def strtol (s : String) : Int :=
  match (cstr s).dropWhile isspace with
  | [] => 0
  | c :: rest =>
    if c = 45 then max (-(2 : Int) ^ 63) (-(accDigits rest 0 : Int))
    else if c = 43 then min ((2 : Int) ^ 63 - 1) (accDigits rest 0)
    else min ((2 : Int) ^ 63 - 1) (accDigits (c :: rest) 0)

/-- C `atol`: `strtol(s, NULL, 10)`. -/
def atol (s : String) : Int := strtol s

/-- C `atoi`: `(int)strtol(s, NULL, 10)`, the `long` narrowed to a 32-bit `int`. -/
def atoi (s : String) : Int := (strtol s + 2 ^ 31) % 2 ^ 32 - 2 ^ 31

/-- The cast `(uint32)x` of a signed integer. -/
def toUint32 (x : Int) : Nat := (x % 2 ^ 32).toNat

/-- The cast `(uint64)x` of a signed integer. -/
def toUint64 (x : Int) : Nat := (x % 2 ^ 64).toNat

/-- Tells whether `strtol` finds at least one digit to convert: after optional
white space and an optional sign the next character is a decimal digit. -/
def hasLeadingInteger (s : String) : Bool :=
  match (cstr s).dropWhile isspace with
  | [] => false
  | c :: rest =>
    if c = 45 ∨ c = 43 then
      (match rest with
       | [] => false
       | d :: _ => isdigit d)
    else isdigit c

/-- Digit value of a character in `base` (8, 10 or 16): the decimal digits
count 0..9 and the letters, in either case, 10 and up; `none` when the character
is no digit of that base. -/
def digitVal (base : Nat) (c : Nat) : Option Nat :=
  if isdigit c then (if c - 48 < base then some (c - 48) else none)
  else if 97 ≤ tolower c ∧ tolower c ≤ 122 ∧ tolower c - 87 < base then some (tolower c - 87)
  else none

/-- Reads the longest run of digits in `base`: the accumulated value, the
number of digits read (added to `n`) and the unread rest. -/
def readDigits (base : Nat) : List Nat → Nat → Nat → Nat × Nat × List Nat
  | [], acc, n => (acc, n, [])
  | c :: cs, acc, n =>
    match digitVal base c with
    | some d => readDigits base cs (acc * base + d) (n + 1)
    | none => (acc, n, c :: cs)

/-- Floor of the binary logarithm, by repeated halving (`fuel` bounds the depth). -/
def log2Fuel : Nat → Nat → Nat
  | 0, _ => 0
  | fuel + 1, n => if n < 2 then 0 else log2Fuel fuel (n / 2) + 1

/-- Floor of the binary logarithm of `n` (0 for `n = 0`). -/
def floorLog2 (n : Nat) : Nat := log2Fuel n n

/-- An IEEE-754 binary interchange format: widths of the fraction and exponent fields. -/
structure FloatFormat where
  mantBits : Nat
  expBits : Nat
deriving DecidableEq

/-- The format of `double` / `float64`. -/
def binary64 : FloatFormat := ⟨52, 11⟩

/-- The format of `float` / `float32`. -/
def binary32 : FloatFormat := ⟨23, 8⟩

/-- Exponent of the unit in the last place of the subnormal numbers (-1074 for binary64). -/
def FloatFormat.minUlpExp (f : FloatFormat) : Int := 2 - (2 : Int) ^ (f.expBits - 1) - f.mantBits

/-- Bit pattern of +infinity. -/
def FloatFormat.infBits (f : FloatFormat) : Nat := (2 ^ f.expBits - 1) * 2 ^ f.mantBits

/-- The sign bit. -/
def FloatFormat.signBit (f : FloatFormat) : Nat := 2 ^ (f.expBits + f.mantBits)

/-- Bit pattern (sign bit clear) of the non-negative rational `num / den`
rounded to the nearest representable number, ties to even; overflow gives
infinity, underflow a subnormal number or zero. -/
def roundMagnitude (f : FloatFormat) (num den : Nat) : Nat :=
  if num = 0 then 0 else
  let e0 : Int := (floorLog2 num : Int) - (floorLog2 den : Int)
  let e : Int := if num * 2 ^ (-e0).toNat < den * 2 ^ e0.toNat then e0 - 1 else e0
  let p : Int := max (e - f.mantBits) f.minUlpExp
  let n := num * 2 ^ (-p).toNat
  let d := den * 2 ^ p.toNat
  let q := n / d
  let r := n % d
  let q1 := if d < 2 * r ∨ (2 * r = d ∧ q % 2 = 1) then q + 1 else q
  min ((p - f.minUlpExp).toNat * 2 ^ f.mantBits + q1) f.infBits

/-- Optional exponent part of a floating literal: the marker character, an
optional sign and at least one decimal digit; 0 when it is absent. -/
def readExponent (marker : Nat) : List Nat → Int
  | [] => 0
  | c :: rest =>
    if tolower c = marker then
      match rest with
      | [] => 0
      | s :: ds =>
        if s = 45 then
          (match readDigits 10 ds 0 0 with
           | (v, n, _) => if n = 0 then 0 else -(v : Int))
        else if s = 43 then
          (match readDigits 10 ds 0 0 with
           | (v, n, _) => if n = 0 then 0 else (v : Int))
        else
          (match readDigits 10 (s :: ds) 0 0 with
           | (v, _, _) => (v : Int))
    else 0

/-- Magnitude of a digit sequence in `base` with an optional point and an
optional exponent (a power of `expBase` introduced by `marker`); `none` when
there is no digit at all. -/
def readNumber (f : FloatFormat) (base expBase marker : Nat) (cs : List Nat) : Option Nat :=
  match readDigits base cs 0 0 with
  | (ip, ni, rest) =>
    let frac : Nat × Nat × List Nat :=
      match rest with
      | [] => (ip, 0, [])
      | c :: fs => if c = 46 then readDigits base fs ip 0 else (ip, 0, rest)
    if ni + frac.2.1 = 0 then none else
    let e := readExponent marker frac.2.2
    some (roundMagnitude f (frac.1 * expBase ^ e.toNat) (base ^ frac.2.1 * expBase ^ (-e).toNat))

/-- Tells whether `cs` starts with the lower-case word `p`, ignoring case. -/
def startsWithCI (p : List Nat) (cs : List Nat) : Bool := (cs.take p.length).map tolower == p

/-- The characters allowed in the n-char-sequence of `nan(...)`: digits, letters, underscore. -/
def isNanChar (c : Nat) : Bool :=
  isdigit c || (65 ≤ c && c ≤ 90) || (97 ≤ c && c ≤ 122) || c == 95

/-- What `strtoull(run, &end, 0)` reads from a run of n-char-sequence characters, when it
reads the whole run: hexadecimal after `0x`, octal after `0`, decimal otherwise, saturated
to 64 bits; `none` when some character is left unread. -/
def nanPayload (run : List Nat) : Option Nat :=
  let read : Nat × Nat × List Nat :=
    if startsWithCI [48, 120] run ∧ (digitVal 16 ((run.drop 2).headD 0)).isSome then
      readDigits 16 (run.drop 2) 0 0
    else if run.head? = some 48 then readDigits 8 run 0 0
    else readDigits 10 run 0 0
  if read.2.2 = [] then some (min read.1 (2 ^ 64 - 1)) else none

/-- The fraction field of the NaN that `strtod` returns for `nan` followed by `rest`, as the
GNU C library builds it: the quiet bit, and when `rest` is `(n-char-sequence)` with a number
as sequence, the low bits of that number as payload. -/
def nanFraction (f : FloatFormat) (rest : List Nat) : Nat :=
  2 ^ (f.mantBits - 1) +
    (match rest with
     | [] => 0
     | c :: cs =>
       if c = 40 ∧ (cs.dropWhile isNanChar).head? = some 41 then
         ((nanPayload (cs.takeWhile isNanChar)).getD 0) % 2 ^ (f.mantBits - 1)
       else 0)

/-- The subject sequence of `strtod` after the sign: `inf`, `nan`, a
hexadecimal or a decimal floating literal; `none` when nothing converts. -/
def strtodMagnitude (f : FloatFormat) (cs : List Nat) : Option Nat :=
  if startsWithCI [105, 110, 102] cs then some f.infBits
  else if startsWithCI [110, 97, 110] cs then some (f.infBits + nanFraction f (cs.drop 3))
  else if startsWithCI [48, 120] cs then
    match readNumber f 16 2 112 (cs.drop 2) with
    | some b => some b
    | none => some 0
  else readNumber f 10 10 101 cs

/-- C `atof`, that is `strtod(s, NULL)`, correctly rounded (round to nearest,
ties to even, as the GNU C library does): the binary64 bit pattern of the
converted prefix, +0.0 when nothing converts. -/
def atof (s : String) : Nat :=
  match (cstr s).dropWhile isspace with
  | [] => 0
  | c :: rest =>
    if c = 45 then
      (match strtodMagnitude binary64 rest with
       | some b => binary64.signBit + b
       | none => 0)
    else if c = 43 then (strtodMagnitude binary64 rest).getD 0
    else (strtodMagnitude binary64 (c :: rest)).getD 0

/-- The cast `(float32)d` of a binary64 bit pattern: round to nearest, ties to
even; infinities stay infinite and a NaN stays a (quiet) NaN. -/
def toFloat32 (d : Nat) : Nat :=
  let sign := d / 2 ^ 63 % 2
  let ex := d / 2 ^ 52 % 2 ^ 11
  let mant := d % 2 ^ 52
  let mag :=
    if ex = 2047 then
      (if mant = 0 then binary32.infBits else binary32.infBits + (2 ^ 22 ||| mant / 2 ^ 29))
    else if ex = 0 then roundMagnitude binary32 mant (2 ^ 1074)
    else roundMagnitude binary32 ((2 ^ 52 + mant) * 2 ^ (ex - 1075)) (2 ^ (1075 - ex))
  sign * binary32.signBit + mag

/-! ## Types of the WebAssembly and Runtime headers -/

/-- Modelled from the spec: `WebAssembly::ValueType`, whose declaration is in a header
outside this file; the four value kinds of the data model. -/
inductive ValueType
  | i32
  | i64
  | f32
  | f64
deriving DecidableEq

/-- Modelled from the spec: `WebAssembly::ResultType`, declared in a header outside this
file; one result kind or no result. -/
inductive ResultType
  | none
  | i32
  | i64
  | f32
  | f64
deriving DecidableEq

/-- Modelled from the spec: `WebAssembly::FunctionType`, declared in a header outside this
file; ordered parameter kinds plus zero or one result kind. -/
structure FunctionType where
  ret : ResultType
  parameters : List ValueType
deriving DecidableEq

/-- Modelled from the spec: `ObjectKind`, declared in a header outside this file; function,
table, memory or global. -/
inductive ObjectKind
  | function
  | table
  | memory
  | global
deriving DecidableEq

/-- Modelled from the spec: `ObjectType`, declared in a header outside this file; the kind
with its kind-specific shape. Only the function signature is inspected by this
file; the other shapes are carried as a code. -/
inductive ObjectType
  | function (type : FunctionType)
  | table (shape : Nat)
  | memory (shape : Nat)
  | global (shape : Nat)
deriving DecidableEq

/-- The field `type.kind`. -/
def ObjectType.kind : ObjectType → ObjectKind
  | .function _ => .function
  | .table _ => .table
  | .memory _ => .memory
  | .global _ => .global

/-- Modelled from the spec: `Runtime::Value`, declared in a header outside this file; a
value tagged with one of the four kinds, built by the converting constructors
`Value(uint32)`, `Value(uint64)`, `Value(float32)`, `Value(float64)`. -/
inductive Value
  | i32 (bits : Nat)
  | i64 (bits : Nat)
  | f32 (bits : Nat)
  | f64 (bits : Nat)
deriving DecidableEq

/-- The tag of a value. -/
def Value.type : Value → ValueType
  | .i32 _ => .i32
  | .i64 _ => .i64
  | .f32 _ => .f32
  | .f64 _ => .f64

/-- Modelled from the spec: `Runtime::Result`, declared in a header outside this file; a
tagged value of one result kind or no result. The field `i32` is an `int32`. -/
inductive Result
  | none
  | i32 (v : Int)
  | i64 (v : Int)
  | f32 (bits : Nat)
  | f64 (bits : Nat)
deriving DecidableEq

/-- The tag of a result. -/
def Result.type : Result → ResultType
  | .none => .none
  | .i32 _ => .i32
  | .i64 _ => .i64
  | .f32 _ => .f32
  | .f64 _ => .f64

/-- Modelled from the spec: `Runtime::FunctionInstance` with `getFunctionType`, declared in a
header outside this file; a function object and its signature. -/
structure FunctionInstance where
  id : Nat
  type : FunctionType
deriving DecidableEq

/-- Modelled from the spec: `Runtime::Object`, declared in a header outside this file; a
runtime object discriminated by its kind. -/
inductive Object
  | function (f : FunctionInstance)
  | table (id : Nat)
  | memory (id : Nat)
  | global (id : Nat)
deriving DecidableEq

/-- Modelled from the spec: `asFunctionNullable`, defined in a header outside this file; the
function behind an object that is present and of function kind, null when the
object is absent or not a function. -/
def asFunctionNullable : Option Object → Option FunctionInstance
  | some (.function f) => some f
  | _ => none

/-- Modelled from the spec: `Runtime::Memory`, declared in a header outside this file; a
linear memory of the runtime. -/
structure Memory where
  id : Nat
deriving DecidableEq

/-- Modelled from the spec: `Runtime::ModuleInstance`, declared in a header outside this
file; an instantiated module with its exports by name and its default memory,
if any. -/
structure ModuleInstance where
  exportMap : List (String × Object)
  defaultMemory : Option Memory
deriving DecidableEq

/-- Modelled from the spec: `getInstanceExport`, defined outside this file
(`getExport(instance, name) -> Object | NotPresent`); the export of that name,
null when absent. -/
def getInstanceExport (moduleInstance : ModuleInstance) (name : String) : Option Object :=
  moduleInstance.exportMap.lookup name

/-- Modelled from the spec: `Runtime::getDefaultMemory`, defined outside this file
(`getDefaultMemory(instance) -> Memory | None`). -/
def getDefaultMemory (moduleInstance : ModuleInstance) : Option Memory :=
  moduleInstance.defaultMemory

/-- Modelled from the spec: the operators of `OperationEncoder`, declared in a header
outside this file; only the two the stub body uses. -/
inductive Opcode
  | unreachable
  | end_
deriving DecidableEq

/-- Modelled from the spec: `WebAssembly::CodeRef`, declared in a header outside this file;
a byte range of the code section. -/
structure CodeRef where
  offset : Nat
  numBytes : Nat
deriving DecidableEq

/-- Modelled from the spec: `WebAssembly::Function`, declared in a header outside this file;
a function definition with its local kinds, the index of its type and the range
of its code, in the order of the initializer of line 57. -/
structure Function where
  nonParameterLocalTypes : List ValueType
  typeIndex : Nat
  code : CodeRef
deriving DecidableEq

/-- Modelled from the spec: `WebAssembly::Export`, declared in a header outside this file;
name, kind and index, in the order of the initializer of line 58. -/
structure Export where
  name : String
  kind : ObjectKind
  index : Nat
deriving DecidableEq

/-- Modelled from the spec: `DisassemblyNames`, declared in a header outside this file; the
debug names attached to a module. -/
structure DisassemblyNames where
  functions : List String := []
deriving DecidableEq

/-- Modelled from the spec: `WebAssembly::Module`, declared in a header outside this file;
the sections this file writes, all empty in a default-constructed module. -/
structure Module where
  types : List FunctionType := []
  functionDefs : List Function := []
  exports : List Export := []
  code : List Nat := []
  names : DisassemblyNames := {}
deriving DecidableEq

/-- Modelled from the spec: `setDisassemblyNames`, defined outside this file; embeds the
name metadata in the module. -/
def setDisassemblyNames (module : Module) (names : DisassemblyNames) : Module :=
  { module with names := names }

/-- Modelled from the spec: `Log::Category`, declared in a header outside this file; the two
categories this file uses. -/
inductive LogCategory
  | error
  | debug
deriving DecidableEq

/-- What `resolve` and `mainBody` do that is visible from outside, in order. -/
inductive Event
  | stderr (line : String)
  | log (category : LogCategory) (text : String)
  | logTimer (context : String)
  | validate (module : Module)
  | instantiateModule (module : Module) (imports : List Object)
  | initInstance (module : Module) (moduleInstance : ModuleInstance)
  | injectCommandArgs (argStrings : List String)
  | invokeFunction (functionInstance : FunctionInstance) (invokeArgs : List Value)
deriving DecidableEq

/-- What a resolver hands back: the boolean it returns and the content of the
reference parameter `outObject` after the call. -/
structure Resolution where
  found : Bool
  outObject : Option Object
deriving DecidableEq

/-- The interface `Resolver::resolve(moduleName, exportName, type, outObject)`. -/
abbrev Resolver := String → String → ObjectType → Option Object → Resolution

/-- Result of `RootResolver::resolve`: a resolution and the events of the call. -/
structure RootResolution where
  found : Bool
  outObject : Option Object
  events : List Event
deriving DecidableEq

/-- The services this file calls and does not define. `invokeFunction` is `none`
when the call raises a runtime exception (a trap) instead of returning. -/
structure Host where
  intrinsicResolver : Resolver
  opcodeBytes : Opcode → List Nat
  instantiateModule : Module → List Object → ModuleInstance
  objectTypeAsString : ObjectType → String
  resultAsString : Result → String
  loadModule : String → Option Module
  linkAndInstantiateModule :
    Module → (String → String → ObjectType → Option Object → RootResolution) → Option ModuleInstance
  injectCommandArgs : List String → List Value → List Value
  invokeFunction : FunctionInstance → List Value → Option Result

/-! ## `RootResolver` -/

/-- The resolver of the program: named sub-resolvers, looked up with `find`. -/
structure RootResolver where
  moduleNameToResolverMap : String → Option Resolver

/-- The module built for a missing function import (lines 46-60 of the file):
code `unreachable; end`, the expected signature as only type, one function
definition, one export named `importStub`, and the debug name. -/
def RootResolver.stubModule (host : Host) (moduleName exportName : String)
    (functionType : FunctionType) : Module :=
  let codeStream : List Nat := []
  let codeStream := codeStream ++ host.opcodeBytes .unreachable
  let codeStream := codeStream ++ host.opcodeBytes .end_
  let stubModule : Module := {}
  let stubModule := { stubModule with code := codeStream }
  let stubModule := { stubModule with types := stubModule.types ++ [functionType] }
  let stubModule :=
    { stubModule with
      functionDefs :=
        stubModule.functionDefs ++ [Function.mk [] 0 (CodeRef.mk 0 stubModule.code.length)] }
  let stubModule :=
    { stubModule with
      exports := stubModule.exports ++ [Export.mk "importStub" ObjectKind.function 0] }
  let stubModuleNames : DisassemblyNames := {}
  let stubModuleNames :=
    { stubModuleNames with
      functions := stubModuleNames.functions ++ [moduleName ++ "." ++ exportName] }
  setDisassemblyNames stubModule stubModuleNames

/-- The line logged when a stub is generated. -/
def stubDiagnostic (host : Host) (moduleName exportName : String) (type : ObjectType) : Event :=
  .log .error
    ("Generated stub for missing function import " ++ moduleName ++ "." ++ exportName
      ++ " : " ++ host.objectTypeAsString type ++ "\n")

/-- The method `RootResolver::resolve`: an intrinsic first, then a named module, finally a
stub for a missing function import. The calls of `WebAssembly::validate` and
`instantiateModule` on the stub are recorded as events; both are taken to
return (a stub rejected by the validator is a fatal fault, not a result of
`resolve`). -/
def RootResolver.resolve (host : Host) (self : RootResolver) (moduleName exportName : String)
    (type : ObjectType) (outObject : Option Object) : RootResolution :=
  let intrinsic := host.intrinsicResolver moduleName exportName type outObject
  if intrinsic.found then ⟨true, intrinsic.outObject, []⟩
  else
    match self.moduleNameToResolverMap moduleName with
    | some namedResolver =>
      let named := namedResolver moduleName exportName type intrinsic.outObject
      ⟨named.found, named.outObject, []⟩
    | none =>
      match type with
      | .function functionType =>
        let stubModule := RootResolver.stubModule host moduleName exportName functionType
        let stubModuleInstance := host.instantiateModule stubModule []
        ⟨true, getInstanceExport stubModuleInstance "importStub",
          [.validate stubModule, .instantiateModule stubModule [],
           stubDiagnostic host moduleName exportName type]⟩
      | _ => ⟨false, intrinsic.outObject, []⟩

/-! ## `mainBody` -/

/-- The status `EXIT_SUCCESS`. -/
def EXIT_SUCCESS : Int := 0

/-- The status `EXIT_FAILURE`. -/
def EXIT_FAILURE : Int := 1

/-- The lines `showHelp` writes to `std::cerr`. -/
def showHelp : List Event :=
  [.stderr "Usage: wavm [switches] [programfile] [--] [arguments]",
   .stderr "  in.wast|in.wasm\t\tSpecify program file (.wast/.wasm)",
   .stderr "  -f|--function name\t\tSpecify function name to run in module rather than main",
   .stderr "  -c|--check\t\t\tExit after checking that the program is valid",
   .stderr "  -d|--debug\t\t\tWrite additional debug information to stdout",
   .stderr "  --\t\t\t\tStop parsing arguments"]

/-- How a run of `mainBody` ends: it returns a status, an exception of
`invokeFunction` leaves it, or it reads `functionType->parameters[index]` past
the end of the vector (undefined behaviour). -/
inductive Outcome
  | returned (status : Int)
  | exception
  | outOfBounds (index : Nat)
deriving DecidableEq

/-- A run of `mainBody`: how it ends and what it did before. -/
structure Run where
  outcome : Outcome
  events : List Event
deriving DecidableEq

/-- Tells whether the event is a call of `invokeFunction`. -/
def Event.isInvoke : Event → Bool
  | .invokeFunction _ _ => true
  | _ => false

/-- Tells whether the run called `invokeFunction`. -/
def Run.invoked (run : Run) : Bool := run.events.any Event.isInvoke

/-- Lines 95-115: the function export to call, or the line written to `std::cerr`. -/
def lookupFunction (moduleInstance : ModuleInstance) (functionName : Option String) :
    Except String FunctionInstance :=
  match functionName with
  | none =>
    match asFunctionNullable (getInstanceExport moduleInstance "main") with
    | some functionInstance => .ok functionInstance
    | none =>
      match asFunctionNullable (getInstanceExport moduleInstance "_main") with
      | some functionInstance => .ok functionInstance
      | none => .error "Module does not export main function"
  | some name =>
    match asFunctionNullable (getInstanceExport moduleInstance name) with
    | some functionInstance => .ok functionInstance
    | none => .error ("Module does not export \x27" ++ name ++ "\x27")

/-- The switch of lines 148-155: the value built from one argument string for one parameter kind. -/
def parseValue (type : ValueType) (arg : String) : Value :=
  match type with
  | .i32 => .i32 (toUint32 (atoi arg))
  | .i64 => .i64 (toUint64 (atol arg))
  | .f32 => .f32 (toFloat32 (atof arg))
  | .f64 => .f64 (atof arg)

/-- The loop of lines 145-157, entered at index `i` with the values pushed so
far: one value per remaining argument string; `error i` when `parameters[i]` is
read with `i` not below the size of the vector. The counter is a `uint32`; an
argument vector has fewer than `2^32` entries, so it does not wrap. The
`default` branch of the switch is not reachable with the four value kinds. -/
def marshalExplicit (parameters : List ValueType) :
    List String → Nat → List Value → Except Nat (List Value)
  | [], _, invokeArgs => .ok invokeArgs
  | arg :: rest, i, invokeArgs =>
    match parameters[i]? with
    | none => .error i
    | some type => marshalExplicit parameters rest (i + 1) (invokeArgs ++ [parseValue type arg])

/-- How the set-up of the arguments (lines 118-158) ends. -/
inductive Marshaled
  | ready (invokeArgs : List Value) (events : List Event)
  | failed (line : String)
  | outOfBounds (index : Nat)
deriving DecidableEq

/-- Lines 118-158: the arguments for the invoke. -/
def setUpArguments (host : Host) (moduleInstance : ModuleInstance) (filename : String)
    (functionName : Option String) (functionType : FunctionType) (args : List String) :
    Marshaled :=
  match functionName with
  | none =>
    if functionType.parameters.length = 2 then
      match getDefaultMemory moduleInstance with
      | none => .failed "Module does not declare a default memory object to put arguments in."
      | some _ =>
        let argStrings := [filename] ++ args
        .ready (host.injectCommandArgs argStrings []) [.injectCommandArgs argStrings]
    else if functionType.parameters.length > 0 then
      .failed ("WebAssembly function requires " ++ toString functionType.parameters.length
        ++ " argument(s), but only 0 or 2 can be passed!")
    else .ready [] []
  | some _ =>
    match marshalExplicit functionType.parameters args 0 [] with
    | .ok invokeArgs => .ready invokeArgs []
    | .error i => .outOfBounds i

/-- Lines 165-171: the status returned after a completed call, with the line logged. -/
def reportResult (host : Host) (functionName : Option String) (functionResult : Result) :
    Int × List Event :=
  match functionName with
  | some name =>
    (EXIT_SUCCESS,
      [.log .debug (name ++ " returned: " ++ host.resultAsString functionResult ++ "\n")])
  | none =>
    match functionResult with
    | .i32 v => (v, [])
    | _ => (EXIT_SUCCESS, [])

/-- The resolver `mainBody` links with: a default-constructed `RootResolver`, whose map is empty. -/
def rootResolver : RootResolver := ⟨fun _ => none⟩

/-- Lines 116-172: with the function to call in hand, set up the arguments,
invoke it once and report its result. -/
def callFunction (host : Host) (module : Module) (moduleInstance : ModuleInstance)
    (filename : String) (functionName : Option String) (functionInstance : FunctionInstance)
    (args : List String) : Run :=
  let linked := [Event.initInstance module moduleInstance]
  let functionType := functionInstance.type
  match setUpArguments host moduleInstance filename functionName functionType args with
  | .failed line => ⟨.returned EXIT_FAILURE, linked ++ [.stderr line]⟩
  | .outOfBounds i => ⟨.outOfBounds i, linked⟩
  | .ready invokeArgs marshalEvents =>
    let called := linked ++ marshalEvents ++ [Event.invokeFunction functionInstance invokeArgs]
    match host.invokeFunction functionInstance invokeArgs with
    | none => ⟨.exception, called⟩
    | some functionResult =>
      let report := reportResult host functionName functionResult
      ⟨.returned report.1, called ++ [.logTimer "Invoked function"] ++ report.2⟩

/-- The function `mainBody(filename, functionName, onlyCheck, args)`. -/
def mainBody (host : Host) (filename : Option String) (functionName : Option String)
    (onlyCheck : Bool) (args : List String) : Run :=
  match filename with
  | none => ⟨.returned EXIT_FAILURE, showHelp⟩
  | some file =>
    match host.loadModule file with
    | none => ⟨.returned EXIT_FAILURE, []⟩
    | some module =>
      if onlyCheck then ⟨.returned EXIT_SUCCESS, []⟩
      else
        match host.linkAndInstantiateModule module (RootResolver.resolve host rootResolver) with
        | none => ⟨.returned EXIT_FAILURE, []⟩
        | some moduleInstance =>
          match lookupFunction moduleInstance functionName with
          | .error line =>
            ⟨.returned EXIT_FAILURE, [Event.initInstance module moduleInstance, .stderr line]⟩
          | .ok functionInstance =>
            callFunction host module moduleInstance file functionName functionInstance args

/-! ## Worked examples: a small host and a few instances -/

/-- A function object `id` of signature `parameters -> ret`. -/
def exampleFunction (id : Nat) (parameters : List ValueType) (ret : ResultType) : FunctionInstance :=
  ⟨id, ⟨ret, parameters⟩⟩

/-- An example host around a given instance: the intrinsic registry knows only
`env.abort` and nulls `outObject` when it misses; `unreachable` and `end` are
the bytes 0 and 11; instantiating a module exports each of its exports as a
function of the indexed type; every file loads and links to the given
instance; a call whose argument count differs from the signature raises, any
other call returns a result of the declared kind (7 for the integer kinds). -/
def exampleHost (moduleInstance : ModuleInstance) : Host where
  intrinsicResolver := fun moduleName exportName _ _ =>
    if moduleName = "env" ∧ exportName = "abort" then
      ⟨true, some (.function (exampleFunction 100 [] .none))⟩
    else ⟨false, none⟩
  opcodeBytes := fun op =>
    match op with
    | .unreachable => [0]
    | .end_ => [11]
  instantiateModule := fun module _ =>
    ⟨module.exports.map fun e =>
        (e.name, Object.function ⟨e.index, module.types.getD e.index ⟨.none, []⟩⟩), none⟩
  objectTypeAsString := fun _ => "func"
  resultAsString := fun _ => "result"
  loadModule := fun _ => some {}
  linkAndInstantiateModule := fun _ _ => some moduleInstance
  injectCommandArgs := fun argStrings invokeArgs => invokeArgs ++ [.i32 argStrings.length, .i32 0]
  invokeFunction := fun functionInstance invokeArgs =>
    if invokeArgs.length = functionInstance.type.parameters.length then
      some
        (match functionInstance.type.ret with
         | .none => .none
         | .i32 => .i32 7
         | .i64 => .i64 7
         | .f32 => .f32 0
         | .f64 => .f64 0)
    else none

/-- An instance exporting both `main` (no parameter) and `_main`, and a memory. -/
def instanceBothMains : ModuleInstance :=
  ⟨[("_main", .function (exampleFunction 2 [.i32, .i32] .i32)),
    ("main", .function (exampleFunction 1 [] .i32)), ("mem", .memory 0)], some ⟨0⟩⟩

/-- An instance exporting only `_main`, of two parameters, with a default memory. -/
def instanceUnderscoreMain : ModuleInstance :=
  ⟨[("_main", .function (exampleFunction 2 [.i32, .i32] .i32))], some ⟨0⟩⟩

/-- An instance exporting `main` of two parameters, without default memory. -/
def instanceNoMemory : ModuleInstance :=
  ⟨[("main", .function (exampleFunction 3 [.i32, .i32] .i32))], none⟩

/-- An instance exporting `main` of three parameters. -/
def instanceThreeParameters : ModuleInstance :=
  ⟨[("main", .function (exampleFunction 4 [.i32, .i32, .i32] .i32))], some ⟨0⟩⟩

/-- An instance exporting `main` without parameter and without result. -/
def instanceVoidMain : ModuleInstance :=
  ⟨[("main", .function (exampleFunction 7 [] .none))], none⟩

/-- An instance whose `main` is a global, and that exports the functions
`f : (i32) -> i32` and `g : (i32, f64) -> none`. -/
def instanceNamed : ModuleInstance :=
  ⟨[("main", .global 0), ("f", .function (exampleFunction 5 [.i32] .i32)),
    ("g", .function (exampleFunction 6 [.i32, .f64] .none))], none⟩

/-- A root resolver in which the module name `env` is registered, with a
sub-resolver that knows only the export `memory`. -/
def exampleRootResolver : RootResolver :=
  ⟨fun moduleName =>
    if moduleName = "env" then
      some fun _ exportName _ outObject =>
        if exportName = "memory" then ⟨true, some (.memory 9)⟩ else ⟨false, outObject⟩
    else none⟩

/-! ## Reference notions for well-formed arguments

These definitions are not taken from the code. They say what a base-10 integer
and a decimal floating literal denote and what the correctly rounded IEEE-754
number is; the conversions above are compared with them. -/

/-- Reference: the number written by a list of decimal digit characters, most
significant digit first. -/
def positional : List Nat → Nat
  | [] => 0
  | c :: cs => (c - 48) * 10 ^ cs.length + positional cs

/-- Reference: every character of the list is a decimal digit. -/
def allDigits (cs : List Nat) : Prop := ∀ c ∈ cs, 48 ≤ c ∧ c ≤ 57

/-- Reference: an optional sign in front of a numeral. -/
inductive Sign
  | absent
  | plus
  | minus
deriving DecidableEq

/-- Reference: the characters of a sign. -/
def Sign.chars : Sign → List Nat
  | .absent => []
  | .plus => [43]
  | .minus => [45]

/-- Reference: the factor of a sign. -/
def Sign.factor : Sign → Int
  | .minus => -1
  | _ => 1

/-- Reference: the string is a base-10 integer denoting `z`: an optional sign
followed by one decimal digit or more, and nothing else. -/
def IsDecimalInteger (s : String) (z : Int) : Prop :=
  ∃ (sign : Sign) (digits : List Nat),
    digits ≠ [] ∧ allDigits digits ∧ cstr s = sign.chars ++ digits
      ∧ z = sign.factor * (positional digits : Int)

/-- Reference: the `w`-bit pattern of a signed integer in two's complement. -/
def twosComplement (w : Nat) (z : Int) : Nat :=
  if 0 ≤ z then z.toNat else (2 ^ w + z).toNat

/-- Reference: a decimal floating literal: an optional sign, digits with an
optional point (the digits after the point are `fracDigits`), and an optional
exponent part made of the letter `e` or `E`, an optional sign and digits. -/
structure DecimalLiteral where
  sign : Sign
  intDigits : List Nat
  fracDigits : Option (List Nat)
  exponent : Option (Nat × Sign × List Nat)

/-- Reference: the digits after the point, none when there is no point. -/
def DecimalLiteral.frac (lit : DecimalLiteral) : List Nat := lit.fracDigits.getD []

/-- Reference: the characters of the literal, in order. -/
def DecimalLiteral.chars (lit : DecimalLiteral) : List Nat :=
  lit.sign.chars ++ lit.intDigits
    ++ (match lit.fracDigits with
        | none => []
        | some fs => 46 :: fs)
    ++ (match lit.exponent with
        | none => []
        | some (marker, sign, digits) => marker :: sign.chars ++ digits)

/-- Reference: the literal is well formed: digits where digits are expected,
at least one digit before the exponent part, and in the exponent part the
letter `e` or `E` and at least one digit. -/
def DecimalLiteral.WellFormed (lit : DecimalLiteral) : Prop :=
  allDigits lit.intDigits ∧ allDigits lit.frac ∧ lit.intDigits ++ lit.frac ≠ []
    ∧ ∀ marker sign digits, lit.exponent = some (marker, sign, digits) →
        (marker = 101 ∨ marker = 69) ∧ digits ≠ [] ∧ allDigits digits

/-- Reference: the power of ten the exponent part denotes, 0 without exponent part. -/
def DecimalLiteral.exponentValue (lit : DecimalLiteral) : Int :=
  match lit.exponent with
  | none => 0
  | some (_, sign, digits) => sign.factor * (positional digits : Int)

/-- Reference: the non-negative rational number the literal denotes, sign apart. -/
def DecimalLiteral.magnitude (lit : DecimalLiteral) : ℚ :=
  (positional (lit.intDigits ++ lit.frac) : ℚ)
    * (10 : ℚ) ^ (lit.exponentValue - (lit.frac.length : Int))

/-- Reference: the number a sign-free bit pattern of the format stands for,
read as IEEE-754 says: with exponent field `E` and fraction field `m`, the
subnormal `m * 2^minUlpExp` when `E = 0`, else
`(2^mantBits + m) * 2^(E - 1 + minUlpExp)`. The pattern of infinity then
stands for the power of two just above the largest finite number. -/
def FloatFormat.decode (f : FloatFormat) (b : Nat) : ℚ :=
  if b / 2 ^ f.mantBits = 0 then ((b % 2 ^ f.mantBits : Nat) : ℚ) * (2 : ℚ) ^ f.minUlpExp
  else ((2 ^ f.mantBits + b % 2 ^ f.mantBits : Nat) : ℚ)
    * (2 : ℚ) ^ (((b / 2 ^ f.mantBits : Nat) : Int) - 1 + f.minUlpExp)

/-- Reference: `b` is the correct rounding of the non-negative number `x` in
the format, to nearest with ties to even: among the patterns up to infinity
none stands for a number nearer to `x`, and when another one is as near, the
last bit of `b` is 0. Infinity counts as the power of two above the largest
finite number, as in IEEE-754. -/
def FloatFormat.IsNearestEven (f : FloatFormat) (x : ℚ) (b : Nat) : Prop :=
  b ≤ f.infBits ∧ ∀ c, c ≤ f.infBits →
    |x - f.decode b| ≤ |x - f.decode c|
      ∧ (|x - f.decode b| = |x - f.decode c| → c ≠ b → b % 2 = 0)

/-- Reference: the bit of a sign, placed above a `width`-bit magnitude. -/
def Sign.bit (sign : Sign) (width : Nat) : Nat :=
  match sign with
  | .minus => 2 ^ width
  | _ => 0

/-! ## Auxiliary facts -/

theorem accDigits_nondigit (c : Nat) (cs : List Nat) (acc : Nat) (h : isdigit c = false) :
    accDigits (c :: cs) acc = acc := by
  simp [accDigits, h]

theorem strtol_eq_zero (s : String) (h : hasLeadingInteger s = false) : strtol s = 0 := by
  unfold hasLeadingInteger at h
  unfold strtol
  cases hcs : (cstr s).dropWhile isspace with
  | nil => rfl
  | cons c rest =>
    rw [hcs] at h
    simp only at h ⊢
    by_cases h45 : c = 45
    · simp only [h45, true_or, if_true] at h ⊢
      cases rest with
      | nil => simp [accDigits]
      | cons d ds =>
        simp only at h
        rw [accDigits_nondigit d ds 0 h]
        simp
    · by_cases h43 : c = 43
      · simp only [h43, or_true, if_true] at h ⊢
        cases rest with
        | nil => simp [accDigits]
        | cons d ds =>
          simp only at h
          rw [accDigits_nondigit d ds 0 h]
          simp
      · simp only [h45, h43, or_self, if_false] at h ⊢
        rw [accDigits_nondigit c rest 0 h]
        simp

theorem atoi_eq_zero (s : String) (h : hasLeadingInteger s = false) : toUint32 (atoi s) = 0 := by
  simp [atoi, toUint32, strtol_eq_zero s h]

theorem atol_eq_zero (s : String) (h : hasLeadingInteger s = false) : toUint64 (atol s) = 0 := by
  simp [atol, toUint64, strtol_eq_zero s h]

theorem marshalExplicit_eq (parameters : List ValueType) :
    ∀ (args : List String) (i : Nat) (invokeArgs : List Value),
      i + args.length ≤ parameters.length →
      marshalExplicit parameters args i invokeArgs =
        .ok (invokeArgs ++ List.zipWith parseValue (parameters.drop i) args) := by
  intro args
  induction args with
  | nil => intro i invokeArgs _; simp [marshalExplicit]
  | cons arg rest ih =>
    intro i invokeArgs h
    have hi : i < parameters.length := by simp at h; omega
    have hrest : i + 1 + rest.length ≤ parameters.length := by simp at h; omega
    rw [marshalExplicit, List.getElem?_eq_getElem hi]
    simp only
    rw [ih (i + 1) _ hrest, List.drop_eq_getElem_cons hi, List.append_assoc]
    rfl

theorem marshalExplicit_overrun (parameters : List ValueType) :
    ∀ (args : List String) (i : Nat) (invokeArgs : List Value),
      i ≤ parameters.length → parameters.length < i + args.length →
      marshalExplicit parameters args i invokeArgs = .error parameters.length := by
  intro args
  induction args with
  | nil => intro i invokeArgs h1 h2; simp at h2; omega
  | cons arg rest ih =>
    intro i invokeArgs h1 h2
    by_cases hi : i < parameters.length
    · rw [marshalExplicit, List.getElem?_eq_getElem hi]
      simp only
      apply ih
      · omega
      · simp at h2; omega
    · have : i = parameters.length := by omega
      subst this
      rw [marshalExplicit, List.getElem?_eq_none (le_refl _)]

theorem mainBody_reached (host : Host) (file : String) (functionName : Option String)
    (args : List String) (module : Module) (moduleInstance : ModuleInstance)
    (functionInstance : FunctionInstance)
    (hload : host.loadModule file = some module)
    (hlink : host.linkAndInstantiateModule module (RootResolver.resolve host rootResolver)
      = some moduleInstance)
    (hsel : lookupFunction moduleInstance functionName = .ok functionInstance) :
    mainBody host (some file) functionName false args =
      callFunction host module moduleInstance file functionName functionInstance args := by
  simp [mainBody, hload, hlink, hsel]

theorem mainBody_no_entry (host : Host) (file : String) (functionName : Option String)
    (args : List String) (module : Module) (moduleInstance : ModuleInstance) (line : String)
    (hload : host.loadModule file = some module)
    (hlink : host.linkAndInstantiateModule module (RootResolver.resolve host rootResolver)
      = some moduleInstance)
    (hsel : lookupFunction moduleInstance functionName = .error line) :
    mainBody host (some file) functionName false args =
      ⟨.returned EXIT_FAILURE, [.initInstance module moduleInstance, .stderr line]⟩ := by
  simp [mainBody, hload, hlink, hsel]

/-! ## The import resolver chain -/

/-- C3: a request the intrinsic resolver satisfies is answered by it alone:
`resolve` returns true with the object the intrinsic resolver stored and
records no event (no stub is validated or instantiated, no diagnostic is
logged), whatever the type and whatever `moduleNameToResolverMap` holds, so
that every root resolver gives the same answer. -/
theorem resolve_intrinsic_first (host : Host) (self : RootResolver)
    (moduleName exportName : String) (type : ObjectType) (outObject : Option Object)
    (hintrinsic : (host.intrinsicResolver moduleName exportName type outObject).found = true) :
    self.resolve host moduleName exportName type outObject =
        ⟨true, (host.intrinsicResolver moduleName exportName type outObject).outObject, []⟩
      ∧ ∀ other : RootResolver,
          other.resolve host moduleName exportName type outObject =
            self.resolve host moduleName exportName type outObject := by
  have key : ∀ r : RootResolver, r.resolve host moduleName exportName type outObject =
      ⟨true, (host.intrinsicResolver moduleName exportName type outObject).outObject, []⟩ := by
    intro r
    simp [RootResolver.resolve, hintrinsic]
  exact ⟨key self, fun other => by rw [key other, key self]⟩

/-- Witness of C3: `env.abort` is an intrinsic of the example host; the request is of function
kind and `env` is a registered module name, yet the intrinsic object is returned and nothing
is logged. -/
theorem resolve_intrinsic_first_witness :
    exampleRootResolver.resolve (exampleHost instanceNamed) "env" "abort"
        (.function ⟨.none, []⟩) none =
      ⟨true, some (.function (exampleFunction 100 [] .none)), []⟩ :=
  (resolve_intrinsic_first (exampleHost instanceNamed) exampleRootResolver "env" "abort"
    (.function ⟨.none, []⟩) none (by decide)).1

/-- C4 fails on the code as worded: the intrinsic lookup of the example host
misses `env.foo` of table kind and `env` is not a registered module name;
`resolve` returns false, yet `outObject`, which held a table object before the
call, does not hold it after the call: the failed intrinsic lookup, which
receives `outObject` by reference, has nulled it. -/
theorem resolve_fallback_counterexample :
    ((exampleHost instanceNamed).intrinsicResolver "env" "foo" (.table 5)
        (some (.table 3))).found = false
      ∧ (rootResolver.moduleNameToResolverMap "env").isNone = true
      ∧ (rootResolver.resolve (exampleHost instanceNamed) "env" "foo" (.table 5)
          (some (.table 3))).found = false
      ∧ (rootResolver.resolve (exampleHost instanceNamed) "env" "foo" (.table 5)
          (some (.table 3))).outObject ≠ some (.table 3) := by
  decide

/-- C4 as amended: when the intrinsic resolver misses (leaving `unresolved` in
`outObject`) and the module name is not registered, `resolve` succeeds exactly
for a type of function kind. A function request resolves to the export
`importStub` of the instantiated stub, after validating and instantiating the
stub and logging the diagnostic. A table, memory or global request returns
false without any event and without an assignment of its own to `outObject`,
which is as the failed intrinsic lookup left it (untouched when that lookup
leaves it untouched). -/
theorem resolve_fallback (host : Host) (self : RootResolver)
    (moduleName exportName : String) (type : ObjectType) (outObject unresolved : Option Object)
    (hintrinsic :
      host.intrinsicResolver moduleName exportName type outObject = ⟨false, unresolved⟩)
    (hnamed : self.moduleNameToResolverMap moduleName = none) :
    ((self.resolve host moduleName exportName type outObject).found = true
        ↔ type.kind = .function)
      ∧ (∀ functionType, type = .function functionType →
          self.resolve host moduleName exportName type outObject =
            ⟨true,
              getInstanceExport
                (host.instantiateModule
                  (RootResolver.stubModule host moduleName exportName functionType) [])
                "importStub",
              [.validate (RootResolver.stubModule host moduleName exportName functionType),
               .instantiateModule
                 (RootResolver.stubModule host moduleName exportName functionType) [],
               .log .error
                 ("Generated stub for missing function import " ++ moduleName ++ "."
                   ++ exportName ++ " : " ++ host.objectTypeAsString type ++ "\n")]⟩)
      ∧ (type.kind ≠ .function →
          self.resolve host moduleName exportName type outObject = ⟨false, unresolved, []⟩) := by
  cases type <;>
    simp [RootResolver.resolve, hintrinsic, hnamed, ObjectType.kind, stubDiagnostic]

/-- Witness of C4 as amended: with the empty map of `mainBody`, the unknown import
`env.foo` of table kind is not found and `outObject` is as the intrinsic lookup
of the example host left it (nulled); the same import of function kind
resolves. -/
theorem resolve_fallback_witness :
    rootResolver.resolve (exampleHost instanceNamed) "env" "foo" (.table 5) (some (.table 3))
        = ⟨false, none, []⟩
      ∧ (rootResolver.resolve (exampleHost instanceNamed) "env" "foo"
          (.function ⟨.i32, [.i64]⟩) (some (.table 3))).found = true :=
  ⟨(resolve_fallback (exampleHost instanceNamed) rootResolver "env" "foo" (.table 5)
      (some (.table 3)) none (by decide) (by rfl)).2.2 (by decide),
   (resolve_fallback (exampleHost instanceNamed) rootResolver "env" "foo"
      (.function ⟨.i32, [.i64]⟩) (some (.table 3)) none (by decide) (by rfl)).1.mpr
      (by decide)⟩

/-- C5: when the intrinsic resolver misses and the module name is registered,
`resolve` returns what the registered resolver returns for the same module
name, export name and type (it receives `outObject` as the intrinsic lookup
left it), and records no event; in particular a failure of the registered
resolver is a failure of `resolve`, without any stub, whatever the type. -/
theorem resolve_named_module (host : Host) (self : RootResolver)
    (moduleName exportName : String) (type : ObjectType) (outObject unresolved : Option Object)
    (namedResolver : Resolver)
    (hintrinsic :
      host.intrinsicResolver moduleName exportName type outObject = ⟨false, unresolved⟩)
    (hnamed : self.moduleNameToResolverMap moduleName = some namedResolver) :
    self.resolve host moduleName exportName type outObject =
        ⟨(namedResolver moduleName exportName type unresolved).found,
          (namedResolver moduleName exportName type unresolved).outObject, []⟩
      ∧ ((namedResolver moduleName exportName type unresolved).found = false →
          (self.resolve host moduleName exportName type outObject).found = false
            ∧ (self.resolve host moduleName exportName type outObject).events = []) := by
  have key : self.resolve host moduleName exportName type outObject =
      ⟨(namedResolver moduleName exportName type unresolved).found,
        (namedResolver moduleName exportName type unresolved).outObject, []⟩ := by
    simp [RootResolver.resolve, hintrinsic, hnamed]
  refine ⟨key, fun hfail => ?_⟩
  rw [key]
  exact ⟨hfail, rfl⟩

/-- Witness of C5: `env` is registered and its resolver does not know `foo`;
the function import `env.foo` is then not found and no stub is made. -/
theorem resolve_named_module_witness :
    (exampleRootResolver.resolve (exampleHost instanceNamed) "env" "foo"
        (.function ⟨.none, []⟩) none).found = false
      ∧ (exampleRootResolver.resolve (exampleHost instanceNamed) "env" "foo"
        (.function ⟨.none, []⟩) none).events = [] :=
  (resolve_named_module (exampleHost instanceNamed) exampleRootResolver "env" "foo"
    (.function ⟨.none, []⟩) none none
    (fun _ exportName _ outObject =>
      if exportName = "memory" then ⟨true, some (.memory 9)⟩ else ⟨false, outObject⟩)
    (by decide) (by rfl)).2 (by decide)

/-- C9: for every signature `S` the stub module has exactly the type `S`; one
function definition, of type index 0, without locals, whose code range starts
at 0 and spans the whole code section, the code being the encoding of
`unreachable` followed by that of `end`; and one export, of function kind,
binding `importStub` to function index 0. When the stub branch of `resolve` is
taken, the object returned is the export `importStub` of the instantiated stub. -/
theorem stub_module_shape (host : Host) (moduleName exportName : String) (S : FunctionType) :
    (RootResolver.stubModule host moduleName exportName S).types = [S]
      ∧ (RootResolver.stubModule host moduleName exportName S).functionDefs =
          [⟨[], 0, ⟨0, (RootResolver.stubModule host moduleName exportName S).code.length⟩⟩]
      ∧ (RootResolver.stubModule host moduleName exportName S).code =
          host.opcodeBytes .unreachable ++ host.opcodeBytes .end_
      ∧ (RootResolver.stubModule host moduleName exportName S).exports =
          [⟨"importStub", .function, 0⟩]
      ∧ ∀ (self : RootResolver) (outObject : Option Object),
          (host.intrinsicResolver moduleName exportName (.function S) outObject).found = false →
          self.moduleNameToResolverMap moduleName = none →
          (self.resolve host moduleName exportName (.function S) outObject).outObject =
            getInstanceExport
              (host.instantiateModule (RootResolver.stubModule host moduleName exportName S) [])
              "importStub" := by
  refine ⟨?_, ?_, ?_, ?_, ?_⟩
  · simp [RootResolver.stubModule, setDisassemblyNames]
  · simp [RootResolver.stubModule, setDisassemblyNames]
  · simp [RootResolver.stubModule, setDisassemblyNames]
  · simp [RootResolver.stubModule, setDisassemblyNames]
  · intro self outObject hintrinsic hnamed
    simp [RootResolver.resolve, hintrinsic, hnamed]

/-- Witness of C9: the stub made for the missing import `env.foo : (i64) -> i32`
is returned by `resolve` as function 0 of that signature. -/
theorem stub_module_shape_witness :
    (rootResolver.resolve (exampleHost instanceNamed) "env" "foo"
        (.function ⟨.i32, [.i64]⟩) none).outObject =
      some (.function ⟨0, ⟨.i32, [.i64]⟩⟩) :=
  ((stub_module_shape (exampleHost instanceNamed) "env" "foo" ⟨.i32, [.i64]⟩).2.2.2.2
    rootResolver none (by decide) (by rfl)).trans (by decide)

/-! ## Entry selection -/

/-- C8: once the module is loaded and linked, the function `mainBody` goes on
with is: without a name, the export `main` when it is a function (whatever
`_main` is), else the export `_main` when it is a function, and when neither is
a function `mainBody` writes its complaint, returns `EXIT_FAILURE` and invokes
nothing; with a name, the export of exactly that name when it is a function,
and otherwise `mainBody` names the missing export, returns `EXIT_FAILURE` and
invokes nothing, whatever `main` and `_main` are. -/
theorem entry_selection (host : Host) (file : String) (args : List String)
    (module : Module) (moduleInstance : ModuleInstance)
    (hload : host.loadModule file = some module)
    (hlink : host.linkAndInstantiateModule module (RootResolver.resolve host rootResolver)
      = some moduleInstance) :
    (∀ f, asFunctionNullable (getInstanceExport moduleInstance "main") = some f →
        lookupFunction moduleInstance none = .ok f
          ∧ mainBody host (some file) none false args =
              callFunction host module moduleInstance file none f args)
      ∧ (∀ f, asFunctionNullable (getInstanceExport moduleInstance "main") = none →
          asFunctionNullable (getInstanceExport moduleInstance "_main") = some f →
          lookupFunction moduleInstance none = .ok f
            ∧ mainBody host (some file) none false args =
                callFunction host module moduleInstance file none f args)
      ∧ (asFunctionNullable (getInstanceExport moduleInstance "main") = none →
          asFunctionNullable (getInstanceExport moduleInstance "_main") = none →
          mainBody host (some file) none false args =
              ⟨.returned EXIT_FAILURE,
                [.initInstance module moduleInstance,
                 .stderr "Module does not export main function"]⟩
            ∧ (mainBody host (some file) none false args).invoked = false)
      ∧ (∀ name f, asFunctionNullable (getInstanceExport moduleInstance name) = some f →
          lookupFunction moduleInstance (some name) = .ok f
            ∧ mainBody host (some file) (some name) false args =
                callFunction host module moduleInstance file (some name) f args)
      ∧ (∀ name, asFunctionNullable (getInstanceExport moduleInstance name) = none →
          mainBody host (some file) (some name) false args =
              ⟨.returned EXIT_FAILURE,
                [.initInstance module moduleInstance,
                 .stderr ("Module does not export \x27" ++ name ++ "\x27")]⟩
            ∧ (mainBody host (some file) (some name) false args).invoked = false) := by
  refine ⟨?_, ?_, ?_, ?_, ?_⟩
  · intro f hmain
    have hsel : lookupFunction moduleInstance none = .ok f := by simp [lookupFunction, hmain]
    exact ⟨hsel, mainBody_reached host file none args module moduleInstance f hload hlink hsel⟩
  · intro f hmain hunder
    have hsel : lookupFunction moduleInstance none = .ok f := by
      simp [lookupFunction, hmain, hunder]
    exact ⟨hsel, mainBody_reached host file none args module moduleInstance f hload hlink hsel⟩
  · intro hmain hunder
    have hsel : lookupFunction moduleInstance none
        = .error "Module does not export main function" := by
      simp [lookupFunction, hmain, hunder]
    rw [mainBody_no_entry host file none args module moduleInstance _ hload hlink hsel]
    exact ⟨rfl, rfl⟩
  · intro name f hname
    have hsel : lookupFunction moduleInstance (some name) = .ok f := by
      simp [lookupFunction, hname]
    exact ⟨hsel,
      mainBody_reached host file (some name) args module moduleInstance f hload hlink hsel⟩
  · intro name hname
    have hsel : lookupFunction moduleInstance (some name)
        = .error ("Module does not export \x27" ++ name ++ "\x27") := by
      simp [lookupFunction, hname]
    rw [mainBody_no_entry host file (some name) args module moduleInstance _ hload hlink hsel]
    exact ⟨rfl, rfl⟩

/-- Witness of C8: `main` wins over `_main` when both are exported; `_main` is
taken when it is alone; an instance whose `main` is a global has no entry; the
name `f` selects `f`; and the name `main` fails on an instance that only
exports `_main`. -/
theorem entry_selection_witness :
    lookupFunction instanceBothMains none = .ok (exampleFunction 1 [] .i32)
      ∧ lookupFunction instanceUnderscoreMain none = .ok (exampleFunction 2 [.i32, .i32] .i32)
      ∧ mainBody (exampleHost instanceNamed) (some "prog.wasm") none false [] =
          ⟨.returned EXIT_FAILURE,
            [.initInstance {} instanceNamed, .stderr "Module does not export main function"]⟩
      ∧ lookupFunction instanceNamed (some "f") = .ok (exampleFunction 5 [.i32] .i32)
      ∧ mainBody (exampleHost instanceUnderscoreMain) (some "prog.wasm") (some "main") false [] =
          ⟨.returned EXIT_FAILURE,
            [.initInstance {} instanceUnderscoreMain,
             .stderr "Module does not export \x27main\x27"]⟩ :=
  ⟨((entry_selection (exampleHost instanceBothMains) "prog.wasm" [] {} instanceBothMains
      rfl rfl).1 _ (by decide)).1,
   ((entry_selection (exampleHost instanceUnderscoreMain) "prog.wasm" [] {}
      instanceUnderscoreMain rfl rfl).2.1 _ (by decide) (by decide)).1,
   ((entry_selection (exampleHost instanceNamed) "prog.wasm" [] {} instanceNamed
      rfl rfl).2.2.1 (by decide) (by decide)).1,
   ((entry_selection (exampleHost instanceNamed) "prog.wasm" [] {} instanceNamed
      rfl rfl).2.2.2.1 "f" _ (by decide)).1,
   ((entry_selection (exampleHost instanceUnderscoreMain) "prog.wasm" [] {}
      instanceUnderscoreMain rfl rfl).2.2.2.2 "main" (by decide)).1⟩

/-! ## Argument marshaling -/

theorem callFunction_ready_events (host : Host) (module : Module)
    (moduleInstance : ModuleInstance) (file : String) (functionName : Option String)
    (f : FunctionInstance) (args : List String) (invokeArgs : List Value)
    (marshalEvents : List Event)
    (hready : setUpArguments host moduleInstance file functionName f.type args
      = .ready invokeArgs marshalEvents) :
    (∀ e ∈ marshalEvents, e ∈ (callFunction host module moduleInstance file functionName f
        args).events)
      ∧ Event.invokeFunction f invokeArgs
          ∈ (callFunction host module moduleInstance file functionName f args).events := by
  unfold callFunction
  simp only [hready]
  cases host.invokeFunction f invokeArgs <;> simp <;> tauto

theorem callFunction_failed (host : Host) (module : Module)
    (moduleInstance : ModuleInstance) (file : String) (functionName : Option String)
    (f : FunctionInstance) (args : List String) (line : String)
    (hfailed : setUpArguments host moduleInstance file functionName f.type args = .failed line) :
    callFunction host module moduleInstance file functionName f args =
      ⟨.returned EXIT_FAILURE, [.initInstance module moduleInstance, .stderr line]⟩ := by
  unfold callFunction
  simp [hfailed]

/-- C6: in the default-entry convention, with the entry `f` selected: if `f`
declares no parameter the argument list is empty and `f` is invoked with it; if
it declares two and the instance has no default memory, `mainBody` complains,
returns `EXIT_FAILURE` and invokes nothing; if it declares two and there is a
default memory, `injectCommandArgs` receives the file name followed by all of
`args` in order and `f` is invoked with what it produces; for any other number
of parameters `mainBody` reports that number and that only 0 or 2 can be
passed, returns `EXIT_FAILURE` and invokes nothing. -/
theorem default_entry_arguments (host : Host) (file : String) (args : List String)
    (module : Module) (moduleInstance : ModuleInstance) (f : FunctionInstance)
    (hload : host.loadModule file = some module)
    (hlink : host.linkAndInstantiateModule module (RootResolver.resolve host rootResolver)
      = some moduleInstance)
    (hsel : lookupFunction moduleInstance none = .ok f) :
    (f.type.parameters.length = 0 →
        setUpArguments host moduleInstance file none f.type args = .ready [] []
          ∧ Event.invokeFunction f [] ∈ (mainBody host (some file) none false args).events)
      ∧ (f.type.parameters.length = 2 → getDefaultMemory moduleInstance = none →
          mainBody host (some file) none false args =
              ⟨.returned EXIT_FAILURE,
                [.initInstance module moduleInstance,
                 .stderr "Module does not declare a default memory object to put arguments in."]⟩
            ∧ (mainBody host (some file) none false args).invoked = false)
      ∧ (f.type.parameters.length = 2 → ∀ memory, getDefaultMemory moduleInstance = some memory →
          Event.injectCommandArgs (file :: args)
              ∈ (mainBody host (some file) none false args).events
            ∧ Event.invokeFunction f (host.injectCommandArgs (file :: args) [])
              ∈ (mainBody host (some file) none false args).events)
      ∧ (f.type.parameters.length ≠ 0 → f.type.parameters.length ≠ 2 →
          mainBody host (some file) none false args =
              ⟨.returned EXIT_FAILURE,
                [.initInstance module moduleInstance,
                 .stderr ("WebAssembly function requires " ++ toString f.type.parameters.length
                   ++ " argument(s), but only 0 or 2 can be passed!")]⟩
            ∧ (mainBody host (some file) none false args).invoked = false) := by
  rw [mainBody_reached host file none args module moduleInstance f hload hlink hsel]
  refine ⟨?_, ?_, ?_, ?_⟩
  · intro h0
    have hready : setUpArguments host moduleInstance file none f.type args = .ready [] [] := by
      simp [setUpArguments, h0]
    exact ⟨hready, (callFunction_ready_events host module moduleInstance file none f args _ _
      hready).2⟩
  · intro h2 hmem
    have hfailed : setUpArguments host moduleInstance file none f.type args
        = .failed "Module does not declare a default memory object to put arguments in." := by
      simp [setUpArguments, h2, hmem]
    rw [callFunction_failed host module moduleInstance file none f args _ hfailed]
    exact ⟨rfl, rfl⟩
  · intro h2 memory hmem
    have hready : setUpArguments host moduleInstance file none f.type args
        = .ready (host.injectCommandArgs (file :: args) [])
            [.injectCommandArgs (file :: args)] := by
      simp [setUpArguments, h2, hmem]
    have hevents := callFunction_ready_events host module moduleInstance file none f args _ _
      hready
    exact ⟨hevents.1 _ (by simp), hevents.2⟩
  · intro h0 h2
    have hfailed : setUpArguments host moduleInstance file none f.type args
        = .failed ("WebAssembly function requires " ++ toString f.type.parameters.length
            ++ " argument(s), but only 0 or 2 can be passed!") := by
      have hpos : f.type.parameters.length > 0 := Nat.pos_of_ne_zero h0
      simp [setUpArguments, h2, hpos]
    rw [callFunction_failed host module moduleInstance file none f args _ hfailed]
    exact ⟨rfl, rfl⟩

/-- Witness of C6: a `main` without parameter is invoked with no argument; a
two-parameter `main` without default memory fails; a two-parameter `_main`
with a memory has `prog.wasm, a, b` handed to `injectCommandArgs`; a
three-parameter `main` fails with the arity message. -/
theorem default_entry_arguments_witness :
    Event.invokeFunction (exampleFunction 1 [] .i32) []
        ∈ (mainBody (exampleHost instanceBothMains) (some "prog.wasm") none false
            ["a", "b"]).events
      ∧ mainBody (exampleHost instanceNoMemory) (some "prog.wasm") none false ["a", "b"] =
          ⟨.returned EXIT_FAILURE,
            [.initInstance {} instanceNoMemory,
             .stderr "Module does not declare a default memory object to put arguments in."]⟩
      ∧ Event.injectCommandArgs ["prog.wasm", "a", "b"]
        ∈ (mainBody (exampleHost instanceUnderscoreMain) (some "prog.wasm") none false
            ["a", "b"]).events
      ∧ mainBody (exampleHost instanceThreeParameters) (some "prog.wasm") none false ["a", "b"] =
          ⟨.returned EXIT_FAILURE,
            [.initInstance {} instanceThreeParameters,
             .stderr
               "WebAssembly function requires 3 argument(s), but only 0 or 2 can be passed!"]⟩ :=
  ⟨((default_entry_arguments (exampleHost instanceBothMains) "prog.wasm" ["a", "b"] {}
      instanceBothMains (exampleFunction 1 [] .i32) rfl rfl rfl).1 (by decide)).2,
   ((default_entry_arguments (exampleHost instanceNoMemory) "prog.wasm" ["a", "b"] {}
      instanceNoMemory (exampleFunction 3 [.i32, .i32] .i32) rfl rfl rfl).2.1
      (by decide) (by decide)).1,
   ((default_entry_arguments (exampleHost instanceUnderscoreMain) "prog.wasm" ["a", "b"] {}
      instanceUnderscoreMain (exampleFunction 2 [.i32, .i32] .i32) rfl rfl rfl).2.2.1
      (by decide) ⟨0⟩ (by decide)).1,
   ((default_entry_arguments (exampleHost instanceThreeParameters) "prog.wasm" ["a", "b"] {}
      instanceThreeParameters (exampleFunction 4 [.i32, .i32, .i32] .i32) rfl rfl
      rfl).2.2.2 (by decide) (by decide)).1⟩

/-! ## Result interpretation -/

/-- C7: when the call completes with the result `functionResult`, `mainBody`
returns `EXIT_SUCCESS` if a function name was given, whatever the result; and
without a function name it returns the integer of an i32 result, and
`EXIT_SUCCESS` for a result of any other kind (i64, f32, f64 or none). -/
theorem result_interpretation (host : Host) (file : String) (functionName : Option String)
    (args : List String) (module : Module) (moduleInstance : ModuleInstance)
    (f : FunctionInstance) (invokeArgs : List Value) (marshalEvents : List Event)
    (functionResult : Result)
    (hload : host.loadModule file = some module)
    (hlink : host.linkAndInstantiateModule module (RootResolver.resolve host rootResolver)
      = some moduleInstance)
    (hsel : lookupFunction moduleInstance functionName = .ok f)
    (hready : setUpArguments host moduleInstance file functionName f.type args
      = .ready invokeArgs marshalEvents)
    (hcall : host.invokeFunction f invokeArgs = some functionResult) :
    (functionName ≠ none →
        (mainBody host (some file) functionName false args).outcome = .returned EXIT_SUCCESS)
      ∧ (functionName = none → ∀ v, functionResult = .i32 v →
          (mainBody host (some file) functionName false args).outcome = .returned v)
      ∧ (functionName = none → functionResult.type ≠ .i32 →
          (mainBody host (some file) functionName false args).outcome
            = .returned EXIT_SUCCESS) := by
  rw [mainBody_reached host file functionName args module moduleInstance f hload hlink hsel]
  unfold callFunction
  simp only [hready, hcall]
  refine ⟨?_, ?_, ?_⟩
  · intro hname
    cases functionName with
    | none => exact absurd rfl hname
    | some name => rfl
  · intro hname v hv
    subst hname
    subst hv
    rfl
  · intro hname hkind
    subst hname
    cases functionResult <;> first | rfl | exact absurd rfl hkind

/-- Witness of C7: the example host returns the i32 result 7 from a function
declared to return an i32; `main` run by default makes 7 the status, the same
result from `f` run by name gives status 0, and a `main` without result run by
default gives status 0. -/
theorem result_interpretation_witness :
    (mainBody (exampleHost instanceBothMains) (some "prog.wasm") none false []).outcome
        = .returned 7
      ∧ (mainBody (exampleHost instanceNamed) (some "prog.wasm") (some "f") false ["5"]).outcome
        = .returned EXIT_SUCCESS
      ∧ (mainBody (exampleHost instanceVoidMain) (some "prog.wasm") none false []).outcome
        = .returned EXIT_SUCCESS :=
  ⟨(result_interpretation (exampleHost instanceBothMains) "prog.wasm" none [] {}
      instanceBothMains (exampleFunction 1 [] .i32) [] [] (.i32 7) rfl rfl rfl
      (by decide) (by decide)).2.1 rfl 7 rfl,
   (result_interpretation (exampleHost instanceNamed) "prog.wasm" (some "f") ["5"] {}
      instanceNamed (exampleFunction 5 [.i32] .i32) [.i32 5] [] (.i32 7) rfl rfl rfl
      (by decide) (by decide)).1 (by decide),
   (result_interpretation (exampleHost instanceVoidMain) "prog.wasm" none [] {}
      instanceVoidMain (exampleFunction 7 [] .none) [] [] .none rfl rfl rfl
      (by decide) (by decide)).2.2 rfl (by decide)⟩

/-! ## Correct rounding of `roundMagnitude` -/

theorem log2Fuel_spec : ∀ (fuel n : Nat), 0 < n → n ≤ fuel →
    2 ^ log2Fuel fuel n ≤ n ∧ n < 2 ^ (log2Fuel fuel n + 1) := by
  intro fuel
  induction fuel with
  | zero => intro n h1 h2; omega
  | succ fuel ih =>
    intro n hpos hle
    unfold log2Fuel
    by_cases h2 : n < 2
    · simp only [h2, if_true]
      have : n = 1 := by omega
      subst this
      simp
    · simp only [h2, if_false]
      have hpos2 : 0 < n / 2 := by omega
      have hle2 : n / 2 ≤ fuel := by omega
      obtain ⟨hlo, hhi⟩ := ih (n / 2) hpos2 hle2
      constructor
      · rw [pow_succ]; omega
      · rw [pow_succ]; omega

theorem floorLog2_spec (n : Nat) (h : 0 < n) :
    2 ^ floorLog2 n ≤ n ∧ n < 2 ^ (floorLog2 n + 1) :=
  log2Fuel_spec n n h (le_refl n)

/-- ratio of the scaled numerator and denominator -/
theorem scaled_ratio (num den : Nat) (k : Int) :
    ((num * 2 ^ (-k).toNat : Nat) : ℚ) / ((den * 2 ^ k.toNat : Nat) : ℚ)
      = (num : ℚ) / (den : ℚ) / (2 : ℚ) ^ k := by
  rcases le_total 0 k with hk | hk
  · obtain ⟨n, rfl⟩ := Int.eq_ofNat_of_zero_le hk
    have h1 : (-(n : Int)).toNat = 0 := by simp
    simp only [h1, Int.toNat_ofNat, pow_zero, mul_one, zpow_natCast]
    push_cast
    rw [div_div]
  · obtain ⟨n, hn⟩ := Int.eq_ofNat_of_zero_le (neg_nonneg.mpr hk)
    have hk2 : k = -(n : Int) := by omega
    subst hk2
    have h1 : (-(n : Int)).toNat = 0 := by simp
    simp only [neg_neg, Int.toNat_ofNat, h1, pow_zero, mul_one, zpow_neg, zpow_natCast]
    push_cast
    field_simp

theorem decode_mk (f : FloatFormat) (E m : Nat) (hm : m < 2 ^ f.mantBits) :
    f.decode (E * 2 ^ f.mantBits + m) =
      if E = 0 then (m : ℚ) * (2 : ℚ) ^ f.minUlpExp
      else ((2 : ℚ) ^ f.mantBits + m) * (2 : ℚ) ^ ((E : Int) - 1 + f.minUlpExp) := by
  have hP : 0 < 2 ^ f.mantBits := by positivity
  have hdiv : (E * 2 ^ f.mantBits + m) / 2 ^ f.mantBits = E := by
    rw [Nat.add_comm, Nat.add_mul_div_right _ _ hP, Nat.div_eq_of_lt hm, Nat.zero_add]
  have hmod : (E * 2 ^ f.mantBits + m) % 2 ^ f.mantBits = m := by
    rw [Nat.add_comm, Nat.add_mul_mod_self_right, Nat.mod_eq_of_lt hm]
  unfold FloatFormat.decode
  rw [hdiv, hmod]
  by_cases hE : E = 0
  · simp [hE]
  · simp only [hE, if_false]
    push_cast
    ring_nf

theorem decode_rep (f : FloatFormat) (t q : Nat)
    (h1 : t = 0 ∨ 2 ^ f.mantBits ≤ q) (h2 : q ≤ 2 ^ (f.mantBits + 1)) :
    f.decode (t * 2 ^ f.mantBits + q) = (q : ℚ) * (2 : ℚ) ^ (f.minUlpExp + (t : Int)) := by
  have hP : 0 < 2 ^ f.mantBits := by positivity
  have hP2 : 2 ^ (f.mantBits + 1) = 2 * 2 ^ f.mantBits := by rw [pow_succ]; ring
  have h2ne : (2 : ℚ) ≠ 0 := by norm_num
  by_cases hq : q < 2 ^ f.mantBits
  · have ht : t = 0 := by
      rcases h1 with h | h
      · exact h
      · omega
    subst ht
    have := decode_mk f 0 q hq
    simp only [zero_mul, zero_add, if_true] at this
    simp [this]
  · by_cases hq2 : q < 2 ^ (f.mantBits + 1)
    · have hb : t * 2 ^ f.mantBits + q = (t + 1) * 2 ^ f.mantBits + (q - 2 ^ f.mantBits) := by
        have : q = 2 ^ f.mantBits + (q - 2 ^ f.mantBits) := by omega
        nth_rewrite 1 [this]
        ring
      have hlt : q - 2 ^ f.mantBits < 2 ^ f.mantBits := by omega
      rw [hb, decode_mk f (t + 1) _ hlt]
      simp only [Nat.succ_ne_zero, if_false]
      have hcast : ((q - 2 ^ f.mantBits : Nat) : ℚ) = (q : ℚ) - (2 : ℚ) ^ f.mantBits := by
        rw [Nat.cast_sub (by omega)]
        push_cast
        ring
      rw [hcast]
      have hexp : ((t + 1 : Nat) : Int) - 1 + f.minUlpExp = f.minUlpExp + (t : Int) := by
        push_cast; ring
      rw [hexp]
      ring
    · have hqe : q = 2 ^ (f.mantBits + 1) := by omega
      have hb : t * 2 ^ f.mantBits + q = (t + 2) * 2 ^ f.mantBits + 0 := by
        rw [hqe, hP2]; ring
      rw [hb, decode_mk f (t + 2) 0 hP]
      simp only [Nat.succ_ne_zero, if_false]
      have hexp : ((t + 2 : Nat) : Int) - 1 + f.minUlpExp = (f.minUlpExp + (t : Int)) + 1 := by
        push_cast; ring
      rw [hexp, zpow_add_one₀ h2ne, hqe]
      push_cast
      ring

/-- every pattern is `t * 2^M + q` with `q` in the range of its binade -/
theorem exists_rep (f : FloatFormat) (b : Nat) :
    ∃ t q, b = t * 2 ^ f.mantBits + q ∧ (t = 0 ∨ 2 ^ f.mantBits ≤ q)
      ∧ q < 2 ^ (f.mantBits + 1) := by
  have hP : 0 < 2 ^ f.mantBits := by positivity
  have hP2 : 2 ^ (f.mantBits + 1) = 2 * 2 ^ f.mantBits := by rw [pow_succ]; ring
  by_cases hb : b < 2 ^ f.mantBits
  · exact ⟨0, b, by simp, Or.inl rfl, by omega⟩
  · refine ⟨b / 2 ^ f.mantBits - 1, 2 ^ f.mantBits + b % 2 ^ f.mantBits, ?_, Or.inr (by omega), ?_⟩
    · have hdiv : 1 ≤ b / 2 ^ f.mantBits := by
        rw [Nat.one_le_div_iff hP]; omega
      have hdm := Nat.div_add_mod b (2 ^ f.mantBits)
      have : (b / 2 ^ f.mantBits - 1) * 2 ^ f.mantBits + 2 ^ f.mantBits
          = 2 ^ f.mantBits * (b / 2 ^ f.mantBits) := by
        have h := Nat.sub_add_cancel hdiv
        calc (b / 2 ^ f.mantBits - 1) * 2 ^ f.mantBits + 2 ^ f.mantBits
            = (b / 2 ^ f.mantBits - 1 + 1) * 2 ^ f.mantBits := by ring
          _ = 2 ^ f.mantBits * (b / 2 ^ f.mantBits) := by rw [h]; ring
      omega
    · have := Nat.mod_lt b hP
      omega

theorem decode_lt_succ (f : FloatFormat) (b : Nat) : f.decode b < f.decode (b + 1) := by
  obtain ⟨t, q, hb, h1, h2⟩ := exists_rep f b
  have hpos : (0 : ℚ) < (2 : ℚ) ^ (f.minUlpExp + (t : Int)) := by positivity
  rw [hb, decode_rep f t q h1 (le_of_lt h2)]
  have : t * 2 ^ f.mantBits + q + 1 = t * 2 ^ f.mantBits + (q + 1) := by ring
  rw [this, decode_rep f t (q + 1) (by omega) (by omega)]
  push_cast
  nlinarith

theorem decode_strictMono (f : FloatFormat) : StrictMono f.decode :=
  strictMono_nat_of_lt_succ (decode_lt_succ f)

theorem decode_zero (f : FloatFormat) : f.decode 0 = 0 := by
  have := decode_rep f 0 0 (Or.inl rfl) (by positivity)
  simpa using this

theorem nat_parity_of_scaled (f : FloatFormat) (hM : 1 ≤ f.mantBits) (t q : Nat) :
    (t * 2 ^ f.mantBits + q) % 2 = q % 2 := by
  obtain ⟨k, hk⟩ : ∃ k, f.mantBits = k + 1 := ⟨f.mantBits - 1, by omega⟩
  rw [hk, pow_succ]
  have : t * (2 ^ k * 2) + q = q + 2 * (t * 2 ^ k) := by ring
  rw [this, Nat.add_mul_mod_self_left]

theorem nearest_core (f : FloatFormat) (hM : 1 ≤ f.mantBits) (x y : ℚ) (t q1 : Nat)
    (hx : x = y * (2 : ℚ) ^ (f.minUlpExp + (t : Int)))
    (hlo : t = 0 ∨ (2 : ℚ) ^ f.mantBits ≤ y)
    (hhi : y < (2 : ℚ) ^ (f.mantBits + 1))
    (hq : |y - (q1 : ℚ)| ≤ 1 / 2)
    (htie : |y - (q1 : ℚ)| = 1 / 2 → q1 % 2 = 0) :
    ∀ c, |x - f.decode (t * 2 ^ f.mantBits + q1)| ≤ |x - f.decode c|
      ∧ (|x - f.decode (t * 2 ^ f.mantBits + q1)| = |x - f.decode c| →
          c ≠ t * 2 ^ f.mantBits + q1 → (t * 2 ^ f.mantBits + q1) % 2 = 0) := by
  have hu : (0 : ℚ) < (2 : ℚ) ^ (f.minUlpExp + (t : Int)) := by positivity
  set u := (2 : ℚ) ^ (f.minUlpExp + (t : Int)) with hudef
  have hP2 : 2 ^ (f.mantBits + 1) = 2 * 2 ^ f.mantBits := by rw [pow_succ]; ring
  have hPpos : 0 < 2 ^ f.mantBits := by positivity
  have habs := abs_le.mp hq
  -- bounds on q1 as a natural number
  have hq1hi : q1 ≤ 2 ^ (f.mantBits + 1) := by
    by_contra hcon
    have h1 : 2 ^ (f.mantBits + 1) + 1 ≤ q1 := by omega
    have h2 : ((2 ^ (f.mantBits + 1) + 1 : Nat) : ℚ) ≤ (q1 : ℚ) := by exact_mod_cast h1
    push_cast at h2
    linarith [habs.1]
  have hq1lo : t = 0 ∨ 2 ^ f.mantBits ≤ q1 := by
    rcases hlo with h | h
    · exact Or.inl h
    · right
      by_contra hcon
      have h1 : q1 + 1 ≤ 2 ^ f.mantBits := by omega
      have h2 : ((q1 + 1 : Nat) : ℚ) ≤ ((2 ^ f.mantBits : Nat) : ℚ) := by exact_mod_cast h1
      push_cast at h2
      linarith [habs.2]
  have hdb : f.decode (t * 2 ^ f.mantBits + q1) = (q1 : ℚ) * u :=
    decode_rep f t q1 hq1lo hq1hi
  have hdist : |x - f.decode (t * 2 ^ f.mantBits + q1)| = |y - (q1 : ℚ)| * u := by
    rw [hdb, hx, ← sub_mul, abs_mul, abs_of_pos hu]
  have hpar := nat_parity_of_scaled f hM t q1
  intro c
  rcases lt_trichotomy c (t * 2 ^ f.mantBits + q1) with hc | hc | hc
  · -- c below
    have hmono : f.decode c ≤ f.decode (t * 2 ^ f.mantBits + q1 - 1) :=
      (decode_strictMono f).monotone (by omega)
    by_cases hA : 1 ≤ q1 ∧ (t = 0 ∨ 2 ^ f.mantBits ≤ q1 - 1)
    · have hb1 : t * 2 ^ f.mantBits + q1 - 1 = t * 2 ^ f.mantBits + (q1 - 1) := by omega
      have hd1 : f.decode (t * 2 ^ f.mantBits + q1 - 1) = ((q1 : ℚ) - 1) * u := by
        rw [hb1, decode_rep f t (q1 - 1) hA.2 (by omega), Nat.cast_sub hA.1]
        simp
      have hgap : (1 / 2 : ℚ) * u ≤ x - f.decode c := by
        have h1 : (y - (q1 : ℚ) + 1) * u ≤ x - f.decode c := by
          have : (y - (q1 : ℚ) + 1) * u = y * u - ((q1 : ℚ) - 1) * u := by ring
          rw [this, hx]; linarith
        have h2 : (1 / 2 : ℚ) * u ≤ (y - (q1 : ℚ) + 1) * u :=
          mul_le_mul_of_nonneg_right (by linarith [habs.1]) (le_of_lt hu)
        linarith
      have hle : x - f.decode c ≤ |x - f.decode c| := le_abs_self _
      have hhalf : |y - (q1 : ℚ)| * u ≤ (1 / 2 : ℚ) * u :=
        mul_le_mul_of_nonneg_right hq (le_of_lt hu)
      constructor
      · rw [hdist]; linarith
      · intro heq _
        rw [hdist] at heq
        have h1 : |y - (q1 : ℚ)| * u ≥ (1 / 2 : ℚ) * u := by rw [heq]; linarith
        have h2 : |y - (q1 : ℚ)| ≥ 1 / 2 := le_of_mul_le_mul_right h1 hu
        rw [hpar]
        exact htie (le_antisymm hq h2)
    · -- q1 is the least of its binade and t > 0, or q1 = 0
      have ht : t ≠ 0 ∧ q1 = 2 ^ f.mantBits := by
        by_cases h0 : t = 0
        · subst h0
          exfalso
          apply hA
          refine ⟨?_, Or.inl rfl⟩
          omega
        · rcases hq1lo with h | h
          · exact absurd h h0
          · refine ⟨h0, ?_⟩
            by_contra hne
            apply hA
            exact ⟨by omega, Or.inr (by omega)⟩
      have hy : (2 : ℚ) ^ f.mantBits ≤ y := by
        rcases hlo with h | h
        · exact absurd h ht.1
        · exact h
      have hq1c : (q1 : ℚ) = (2 : ℚ) ^ f.mantBits := by rw [ht.2]; push_cast; rfl
      have hlt : f.decode c < f.decode (t * 2 ^ f.mantBits + q1) := decode_strictMono f hc
      have hxge : f.decode (t * 2 ^ f.mantBits + q1) ≤ x := by
        rw [hdb, hx, hq1c]
        exact mul_le_mul_of_nonneg_right hy (le_of_lt hu)
      have h1 : |x - f.decode (t * 2 ^ f.mantBits + q1)|
          = x - f.decode (t * 2 ^ f.mantBits + q1) := abs_of_nonneg (by linarith)
      have h2 : |x - f.decode c| = x - f.decode c := abs_of_nonneg (by linarith)
      constructor
      · rw [h1, h2]; linarith
      · intro heq _
        rw [h1, h2] at heq
        linarith
  · subst hc
    exact ⟨le_refl _, fun _ hne => absurd rfl hne⟩
  · -- c above
    have hmono : f.decode (t * 2 ^ f.mantBits + q1 + 1) ≤ f.decode c :=
      (decode_strictMono f).monotone (by omega)
    have hnext : ((q1 : ℚ) + 1) * u ≤ f.decode (t * 2 ^ f.mantBits + q1 + 1) := by
      by_cases hq2 : q1 < 2 ^ (f.mantBits + 1)
      · have hb1 : t * 2 ^ f.mantBits + q1 + 1 = t * 2 ^ f.mantBits + (q1 + 1) := by ring
        rw [hb1, decode_rep f t (q1 + 1) (by omega) (by omega)]
        push_cast
        exact le_refl _
      · have hqe : q1 = 2 ^ (f.mantBits + 1) := by omega
        have hb1 : t * 2 ^ f.mantBits + q1 + 1
            = (t + 1) * 2 ^ f.mantBits + (2 ^ f.mantBits + 1) := by
          rw [hqe, hP2]; ring
        rw [hb1, decode_rep f (t + 1) (2 ^ f.mantBits + 1) (Or.inr (by omega)) (by omega)]
        have hexp : f.minUlpExp + ((t + 1 : Nat) : Int) = f.minUlpExp + (t : Int) + 1 := by
          push_cast; ring
        rw [hexp, zpow_add_one₀ (by norm_num : (2 : ℚ) ≠ 0), ← hudef, hqe]
        push_cast
        have hpow : (2 : ℚ) ^ (f.mantBits + 1) = 2 * (2 : ℚ) ^ f.mantBits := by
          rw [pow_succ]; ring
        rw [hpow]
        have : ((2 : ℚ) * 2 ^ f.mantBits + 1) * u ≤ ((2 : ℚ) ^ f.mantBits + 1) * (u * 2) := by
          have : ((2 : ℚ) ^ f.mantBits + 1) * (u * 2)
              = ((2 : ℚ) * 2 ^ f.mantBits + 1) * u + u := by ring
          rw [this]; linarith
        exact this
    have hgap : (1 / 2 : ℚ) * u ≤ f.decode c - x := by
      have h1 : ((q1 : ℚ) + 1 - y) * u ≤ f.decode c - x := by
        have : ((q1 : ℚ) + 1 - y) * u = ((q1 : ℚ) + 1) * u - y * u := by ring
        rw [this, hx]; linarith
      have h2 : (1 / 2 : ℚ) * u ≤ ((q1 : ℚ) + 1 - y) * u :=
        mul_le_mul_of_nonneg_right (by linarith [habs.2]) (le_of_lt hu)
      linarith
    have hle : f.decode c - x ≤ |x - f.decode c| := by
      rw [abs_sub_comm]; exact le_abs_self _
    have hhalf : |y - (q1 : ℚ)| * u ≤ (1 / 2 : ℚ) * u :=
      mul_le_mul_of_nonneg_right hq (le_of_lt hu)
    constructor
    · rw [hdist]; linarith
    · intro heq _
      rw [hdist] at heq
      have h1 : |y - (q1 : ℚ)| * u ≥ (1 / 2 : ℚ) * u := by rw [heq]; linarith
      have h2 : |y - (q1 : ℚ)| ≥ 1 / 2 := le_of_mul_le_mul_right h1 hu
      rw [hpar]
      exact htie (le_antisymm hq h2)

theorem nearest_capped (f : FloatFormat) (x : ℚ) (b : Nat)
    (h : ∀ c, |x - f.decode b| ≤ |x - f.decode c|
      ∧ (|x - f.decode b| = |x - f.decode c| → c ≠ b → b % 2 = 0)) :
    f.IsNearestEven x (min b f.infBits) := by
  by_cases hb : b ≤ f.infBits
  · rw [min_eq_left hb]
    exact ⟨hb, fun c _ => h c⟩
  · have hlt : f.infBits < b := by omega
    rw [min_eq_right (le_of_lt hlt)]
    refine ⟨le_refl _, fun c hc => ?_⟩
    have hprev := (h (b - 1)).1
    have hd1 : f.decode (b - 1) < f.decode b := decode_strictMono f (by omega)
    have hB : f.decode f.infBits ≤ f.decode (b - 1) :=
      (decode_strictMono f).monotone (by omega)
    have hcB : f.decode c ≤ f.decode f.infBits := (decode_strictMono f).monotone hc
    have hx : f.decode (b - 1) < x := by
      by_contra hcon
      push_neg at hcon
      have h1 : |x - f.decode (b - 1)| = f.decode (b - 1) - x := by
        rw [abs_sub_comm]; exact abs_of_nonneg (by linarith)
      have h2 : |x - f.decode b| = f.decode b - x := by
        rw [abs_sub_comm]; exact abs_of_nonneg (by linarith)
      rw [h1, h2] at hprev
      linarith
    have h1 : |x - f.decode f.infBits| = x - f.decode f.infBits :=
      abs_of_nonneg (by linarith)
    have h2 : |x - f.decode c| = x - f.decode c := abs_of_nonneg (by linarith)
    constructor
    · rw [h1, h2]; linarith
    · intro heq hne
      rw [h1, h2] at heq
      have : f.decode c = f.decode f.infBits := by linarith
      exact absurd ((decode_strictMono f).injective this) hne

theorem nearest_zero (f : FloatFormat) : f.IsNearestEven 0 0 := by
  refine ⟨Nat.zero_le _, fun c _ => ?_⟩
  rw [decode_zero]
  simp only [sub_zero, abs_zero, zero_sub, abs_neg]
  refine ⟨abs_nonneg _, fun heq hne => ?_⟩
  have h0 : f.decode c = 0 := abs_eq_zero.mp heq.symm
  have : f.decode c = f.decode 0 := by rw [h0, decode_zero]
  exact absurd ((decode_strictMono f).injective this) hne

/-- the quotient and remainder of a division give the nearest integer, ties to even -/
theorem round_half_even (n d : Nat) (hd : 0 < d) (y : ℚ) (hy : (n : ℚ) / (d : ℚ) = y) :
    |y - ((if d < 2 * (n % d) ∨ 2 * (n % d) = d ∧ n / d % 2 = 1 then n / d + 1 else n / d
        : Nat) : ℚ)| ≤ 1 / 2
      ∧ (|y - ((if d < 2 * (n % d) ∨ 2 * (n % d) = d ∧ n / d % 2 = 1 then n / d + 1 else n / d
        : Nat) : ℚ)| = 1 / 2 →
          (if d < 2 * (n % d) ∨ 2 * (n % d) = d ∧ n / d % 2 = 1 then n / d + 1 else n / d) % 2
            = 0) := by
  have hdq : (0 : ℚ) < (d : ℚ) := by exact_mod_cast hd
  have hdm := Nat.div_add_mod n d
  have hr := Nat.mod_lt n hd
  set q := n / d with hq
  set r := n % d with hrdef
  have hyq : y = (q : ℚ) + (r : ℚ) / (d : ℚ) := by
    rw [← hy]
    have : (n : ℚ) = (d : ℚ) * (q : ℚ) + (r : ℚ) := by exact_mod_cast hdm.symm
    rw [this]
    field_simp
    ring
  have hr0 : (0 : ℚ) ≤ (r : ℚ) / (d : ℚ) := by positivity
  have hrd : (r : ℚ) < (d : ℚ) := by exact_mod_cast hr
  by_cases hup : d < 2 * r ∨ 2 * r = d ∧ q % 2 = 1
  · simp only [hup, if_true]
    have h2r : (d : ℚ) ≤ 2 * (r : ℚ) := by
      rcases hup with h | h
      · exact_mod_cast le_of_lt h
      · exact_mod_cast le_of_eq h.1.symm
    have hfrac : (1 / 2 : ℚ) ≤ (r : ℚ) / (d : ℚ) := by
      rw [le_div_iff₀ hdq]; linarith
    have hfrac1 : (r : ℚ) / (d : ℚ) < 1 := by
      rw [div_lt_one hdq]; exact hrd
    have hval : y - ((q + 1 : Nat) : ℚ) = (r : ℚ) / (d : ℚ) - 1 := by
      rw [hyq]; push_cast; ring
    rw [hval]
    have hneg : (r : ℚ) / (d : ℚ) - 1 ≤ 0 := by linarith
    rw [abs_of_nonpos hneg]
    refine ⟨by linarith, fun heq => ?_⟩
    have hhalf : (r : ℚ) / (d : ℚ) = 1 / 2 := by linarith
    have h2 : 2 * (r : ℚ) = (d : ℚ) := by
      field_simp at hhalf
      linarith
    have h2n : 2 * r = d := by exact_mod_cast h2
    rcases hup with h | h
    · omega
    · omega
  · simp only [hup, if_false]
    push_neg at hup
    have h2r : 2 * (r : ℚ) ≤ (d : ℚ) := by exact_mod_cast hup.1
    have hfrac : (r : ℚ) / (d : ℚ) ≤ 1 / 2 := by
      rw [div_le_iff₀ hdq]; linarith
    have hval : y - (q : ℚ) = (r : ℚ) / (d : ℚ) := by rw [hyq]; ring
    rw [hval, abs_of_nonneg hr0]
    refine ⟨hfrac, fun heq => ?_⟩
    have h2 : 2 * (r : ℚ) = (d : ℚ) := by
      field_simp at heq
      linarith
    have h2n : 2 * r = d := by exact_mod_cast h2
    have := hup.2 h2n
    omega

/-- the exponent computed from the two logarithms brackets the ratio -/
theorem exponent_bracket (num den : Nat) (hnum : 0 < num) (hden : 0 < den) (e0 e : Int)
    (he0 : e0 = (floorLog2 num : Int) - (floorLog2 den : Int))
    (he : e = if num * 2 ^ (-e0).toNat < den * 2 ^ e0.toNat then e0 - 1 else e0) :
    (2 : ℚ) ^ e ≤ (num : ℚ) / (den : ℚ) ∧ (num : ℚ) / (den : ℚ) < (2 : ℚ) ^ (e + 1) := by
  have h2 : (2 : ℚ) ≠ 0 := by norm_num
  have hdq : (0 : ℚ) < (den : ℚ) := by exact_mod_cast hden
  have hnq : (0 : ℚ) < (num : ℚ) := by exact_mod_cast hnum
  obtain ⟨hna, hnb⟩ := floorLog2_spec num hnum
  obtain ⟨hda, hdb⟩ := floorLog2_spec den hden
  have hnaq : (2 : ℚ) ^ floorLog2 num ≤ (num : ℚ) := by exact_mod_cast hna
  have hnbq : (num : ℚ) < 2 * (2 : ℚ) ^ floorLog2 num := by
    have : (num : ℚ) < (2 : ℚ) ^ (floorLog2 num + 1) := by exact_mod_cast hnb
    rwa [pow_succ, mul_comm] at this
  have hdaq : (2 : ℚ) ^ floorLog2 den ≤ (den : ℚ) := by exact_mod_cast hda
  have hdbq : (den : ℚ) < 2 * (2 : ℚ) ^ floorLog2 den := by
    have : (den : ℚ) < (2 : ℚ) ^ (floorLog2 den + 1) := by exact_mod_cast hdb
    rwa [pow_succ, mul_comm] at this
  set A : ℚ := (2 : ℚ) ^ floorLog2 num with hA
  set B : ℚ := (2 : ℚ) ^ floorLog2 den with hB
  have hApos : 0 < A := by positivity
  have hBpos : 0 < B := by positivity
  have hpow : (2 : ℚ) ^ e0 = A / B := by
    rw [he0, zpow_sub₀ h2, zpow_natCast, zpow_natCast]
  -- the ratio lies strictly between half and twice `2 ^ e0`
  have hupper : (num : ℚ) / (den : ℚ) < 2 * (2 : ℚ) ^ e0 := by
    rw [hpow, div_lt_iff₀ hdq]
    have : 2 * (A / B) * (den : ℚ) = 2 * A * ((den : ℚ) / B) := by field_simp
    rw [this]
    have h1 : 1 ≤ (den : ℚ) / B := by rw [le_div_iff₀ hBpos]; linarith
    nlinarith
  have hlower : (2 : ℚ) ^ e0 / 2 < (num : ℚ) / (den : ℚ) := by
    rw [hpow, lt_div_iff₀ hdq]
    have : A / B / 2 * (den : ℚ) = A * ((den : ℚ) / (2 * B)) := by field_simp; ring
    rw [this]
    have h1 : (den : ℚ) / (2 * B) < 1 := by rw [div_lt_one (by positivity)]; linarith
    nlinarith
  have htest : (num * 2 ^ (-e0).toNat < den * 2 ^ e0.toNat)
      ↔ (num : ℚ) / (den : ℚ) < (2 : ℚ) ^ e0 := by
    have hD : (0 : ℚ) < ((den * 2 ^ e0.toNat : Nat) : ℚ) := by
      have : 0 < den * 2 ^ e0.toNat := by positivity
      exact_mod_cast this
    have hratio := scaled_ratio num den e0
    have hpos : (0 : ℚ) < (2 : ℚ) ^ e0 := by positivity
    constructor
    · intro h
      have hq : ((num * 2 ^ (-e0).toNat : Nat) : ℚ) < ((den * 2 ^ e0.toNat : Nat) : ℚ) := by
        exact_mod_cast h
      have : ((num * 2 ^ (-e0).toNat : Nat) : ℚ) / ((den * 2 ^ e0.toNat : Nat) : ℚ) < 1 := by
        rw [div_lt_one hD]; exact hq
      rw [hratio, div_lt_one hpos] at this
      exact this
    · intro h
      have : (num : ℚ) / (den : ℚ) / (2 : ℚ) ^ e0 < 1 := by rw [div_lt_one hpos]; exact h
      rw [← hratio, div_lt_one hD] at this
      exact_mod_cast this
  by_cases hlt : num * 2 ^ (-e0).toNat < den * 2 ^ e0.toNat
  · have hee : e = e0 - 1 := by rw [he]; simp [hlt]
    have hx := htest.mp hlt
    rw [hee]
    constructor
    · rw [zpow_sub_one₀ h2]
      have : (2 : ℚ) ^ e0 * 2⁻¹ = (2 : ℚ) ^ e0 / 2 := by ring
      rw [this]; exact le_of_lt hlower
    · simpa using hx
  · have hee : e = e0 := by rw [he]; simp [hlt]
    have hx : (2 : ℚ) ^ e0 ≤ (num : ℚ) / (den : ℚ) := by
      by_contra hcon
      exact hlt (htest.mpr (lt_of_not_le hcon))
    rw [hee]
    constructor
    · exact hx
    · rw [zpow_add_one₀ h2]; linarith

theorem roundMagnitude_nearest (f : FloatFormat) (hM : 1 ≤ f.mantBits) (num den : Nat)
    (hden : 0 < den) :
    f.IsNearestEven ((num : ℚ) / (den : ℚ)) (roundMagnitude f num den) := by
  by_cases hnum : num = 0
  · subst hnum
    simp only [roundMagnitude, if_true, Nat.cast_zero, zero_div]
    exact nearest_zero f
  · have hnpos : 0 < num := Nat.pos_of_ne_zero hnum
    have h2 : (2 : ℚ) ≠ 0 := by norm_num
    unfold roundMagnitude
    simp only [hnum, if_false]
    set e0 : Int := (floorLog2 num : Int) - (floorLog2 den : Int) with he0
    set e : Int := if num * 2 ^ (-e0).toNat < den * 2 ^ e0.toNat then e0 - 1 else e0 with he
    set p : Int := max (e - f.mantBits) f.minUlpExp with hp
    set n : Nat := num * 2 ^ (-p).toNat with hn
    set d : Nat := den * 2 ^ p.toNat with hd
    obtain ⟨helo, hehi⟩ := exponent_bracket num den hnpos hden e0 e he0 he
    have hdpos : 0 < d := by rw [hd]; positivity
    have hpmu : f.minUlpExp ≤ p := le_max_right _ _
    have hpe : e - f.mantBits ≤ p := le_max_left _ _
    have ht : ((p - f.minUlpExp).toNat : Int) = p - f.minUlpExp :=
      Int.toNat_of_nonneg (by omega)
    have hpt : p = f.minUlpExp + ((p - f.minUlpExp).toNat : Int) := by omega
    have hy : (n : ℚ) / (d : ℚ) = (num : ℚ) / (den : ℚ) / (2 : ℚ) ^ p := by
      rw [hn, hd]; exact scaled_ratio num den p
    have hppos : (0 : ℚ) < (2 : ℚ) ^ p := by positivity
    obtain ⟨hq, htie⟩ := round_half_even n d hdpos _ hy
    apply nearest_capped
    apply nearest_core f hM ((num : ℚ) / (den : ℚ)) ((num : ℚ) / (den : ℚ) / (2 : ℚ) ^ p)
      (p - f.minUlpExp).toNat _ _ _ _ hq htie
    · rw [← hpt]; field_simp; ring
    · by_cases hcase : p = f.minUlpExp
      · left; rw [hcase]; simp
      · right
        have hpeq : p = e - f.mantBits := by
          rcases max_choice (e - (f.mantBits : Int)) f.minUlpExp with h | h
          · rw [hp, h]
          · exact absurd (by rw [hp, h]) hcase
        rw [le_div_iff₀ hppos, hpeq, ← zpow_natCast, ← zpow_add₀ h2]
        have : (f.mantBits : Int) + (e - f.mantBits) = e := by ring
        rw [this]; exact helo
    · rw [div_lt_iff₀ hppos]
      have hmono : (2 : ℚ) ^ (e - (f.mantBits : Int)) ≤ (2 : ℚ) ^ p :=
        zpow_le_zpow_right₀ (by norm_num) hpe
      have hsplit : (2 : ℚ) ^ (e + 1) = (2 : ℚ) ^ (f.mantBits + 1) * (2 : ℚ) ^ (e - f.mantBits) := by
        rw [← zpow_natCast, ← zpow_add₀ h2]
        congr 1
        push_cast; ring
      have hPpos : (0 : ℚ) < (2 : ℚ) ^ (f.mantBits + 1) := by positivity
      calc (num : ℚ) / (den : ℚ) < (2 : ℚ) ^ (e + 1) := hehi
        _ = (2 : ℚ) ^ (f.mantBits + 1) * (2 : ℚ) ^ (e - f.mantBits) := hsplit
        _ ≤ (2 : ℚ) ^ (f.mantBits + 1) * (2 : ℚ) ^ p :=
            mul_le_mul_of_nonneg_left hmono (le_of_lt hPpos)

theorem nearest_inf (f : FloatFormat) (x : ℚ) (hx : f.decode f.infBits ≤ x) :
    f.IsNearestEven x f.infBits := by
  refine ⟨le_refl _, fun c hc => ?_⟩
  have hcB : f.decode c ≤ f.decode f.infBits := (decode_strictMono f).monotone hc
  have h1 : |x - f.decode f.infBits| = x - f.decode f.infBits := abs_of_nonneg (by linarith)
  have h2 : |x - f.decode c| = x - f.decode c := abs_of_nonneg (by linarith)
  constructor
  · rw [h1, h2]; linarith
  · intro heq hne
    rw [h1, h2] at heq
    have : f.decode c = f.decode f.infBits := by linarith
    exact absurd ((decode_strictMono f).injective this) hne

theorem decode_inf_binary32_le : binary32.decode binary32.infBits ≤ binary64.decode binary64.infBits := by
  have h32 : binary32.infBits = 255 * 2 ^ binary32.mantBits + 0 := by
    simp [FloatFormat.infBits, binary32]
  have h64 : binary64.infBits = 2047 * 2 ^ binary64.mantBits + 0 := by
    simp [FloatFormat.infBits, binary64]
  rw [h32, h64, decode_mk binary32 255 0 (by positivity), decode_mk binary64 2047 0 (by positivity)]
  simp only [show ¬ (255 : Nat) = 0 by decide, show ¬ (2047 : Nat) = 0 by decide, if_false]
  have e32 : ((255 : Nat) : Int) - 1 + binary32.minUlpExp = 105 := by
    simp [FloatFormat.minUlpExp, binary32]
  have e64 : ((2047 : Nat) : Int) - 1 + binary64.minUlpExp = 972 := by
    simp [FloatFormat.minUlpExp, binary64]
  rw [e32, e64]
  simp only [binary32, binary64, Nat.cast_zero, add_zero]
  have h2 : (2 : ℚ) ≠ 0 := by norm_num
  have l : (2 : ℚ) ^ (23 : Nat) * (2 : ℚ) ^ (105 : Int) = (2 : ℚ) ^ (128 : Int) := by
    rw [← zpow_natCast, ← zpow_add₀ h2]; norm_num
  have r : (2 : ℚ) ^ (52 : Nat) * (2 : ℚ) ^ (972 : Int) = (2 : ℚ) ^ (1024 : Int) := by
    rw [← zpow_natCast, ← zpow_add₀ h2]; norm_num
  rw [l, r]
  exact zpow_le_zpow_right₀ (by norm_num) (by norm_num)

theorem nearest_not_lt (f : FloatFormat) (x : ℚ) (b c : Nat)
    (hb : f.IsNearestEven x b) (hc : f.IsNearestEven x c) : ¬ b < c := by
  intro hlt
  have hne : c ≠ b := by omega
  obtain ⟨h1, h1t⟩ := hb.2 c hc.1
  obtain ⟨h2, h2t⟩ := hc.2 b hb.1
  have heq : |x - f.decode b| = |x - f.decode c| := le_antisymm h1 h2
  have hbe : b % 2 = 0 := h1t heq hne
  have hce : c % 2 = 0 := h2t heq.symm (by omega)
  have hmid : b + 1 < c := by omega
  have hd1 : f.decode b < f.decode (b + 1) := decode_strictMono f (by omega)
  have hd2 : f.decode (b + 1) < f.decode c := decode_strictMono f hmid
  obtain ⟨h3, _⟩ := hb.2 (b + 1) (by have := hc.1; omega)
  rcases abs_eq_abs.mp heq with h | h
  · have : f.decode b = f.decode c := by linarith
    linarith
  · have hpos : 0 ≤ x - f.decode b := by linarith
    rw [abs_of_nonneg hpos] at h3
    have : |x - f.decode (b + 1)| < x - f.decode b := by
      rw [abs_lt]
      constructor <;> linarith
    linarith

theorem nearest_unique (f : FloatFormat) (x : ℚ) (b c : Nat)
    (hb : f.IsNearestEven x b) (hc : f.IsNearestEven x c) : b = c := by
  have h1 := nearest_not_lt f x b c hb hc
  have h2 := nearest_not_lt f x c b hc hb
  omega

theorem decode_three_and_a_half : binary64.decode 0x400C000000000000 = 7 / 2 := by
  have h : (0x400C000000000000 : Nat) = 1024 * 2 ^ binary64.mantBits + 0xC000000000000 := by
    simp [binary64]
  rw [h, decode_mk binary64 1024 _ (by simp [binary64])]
  simp [binary64, FloatFormat.minUlpExp]
  norm_num

/-! ## The conversions on well-formed numerals -/

theorem isdigit_of_digit (c : Nat) (h : 48 ≤ c ∧ c ≤ 57) : isdigit c = true := by
  simp [isdigit, h.1, h.2]

theorem isspace_of_literal_char (c : Nat)
    (h : (48 ≤ c ∧ c ≤ 57) ∨ c = 43 ∨ c = 45 ∨ c = 46) : isspace c = false := by
  unfold isspace
  rcases h with h | h | h | h
  · have h1 : ¬ c = 32 := by omega
    have h2 : ¬ c ≤ 13 := by omega
    simp [h1, h2]
  · subst h; decide
  · subst h; decide
  · subst h; decide

theorem positional_append (as bs : List Nat) :
    positional (as ++ bs) = positional as * 10 ^ bs.length + positional bs := by
  induction as with
  | nil => simp [positional]
  | cons a as ih =>
    show positional (a :: (as ++ bs)) = _
    rw [positional, ih, List.length_append, pow_add]
    simp only [positional]
    ring

theorem accDigits_digits (ds : List Nat) (hds : allDigits ds) :
    ∀ acc, accDigits ds acc = acc * 10 ^ ds.length + positional ds := by
  induction ds with
  | nil => intro acc; simp [accDigits, positional]
  | cons d ds ih =>
    intro acc
    have hd : isdigit d = true := isdigit_of_digit d (hds d (List.mem_cons_self _ _))
    have hrest : allDigits ds := fun c hc => hds c (List.mem_cons_of_mem _ hc)
    rw [accDigits]
    simp only [hd, if_true]
    rw [ih hrest]
    simp only [positional, List.length_cons]
    rw [pow_succ]
    ring

theorem digitVal_digit (c : Nat) (h : 48 ≤ c ∧ c ≤ 57) : digitVal 10 c = some (c - 48) := by
  have hd := isdigit_of_digit c h
  have hlt : c - 48 < 10 := by omega
  simp [digitVal, hd, hlt]

theorem digitVal_nondigit (c : Nat) (h : c = 46 ∨ c = 101 ∨ c = 69 ∨ c = 43 ∨ c = 45) :
    digitVal 10 c = none := by
  rcases h with h | h | h | h | h <;> subst h <;> decide

theorem readDigits_digits (ds : List Nat) (hds : allDigits ds) (rest : List Nat)
    (hrest : ∀ c, rest.head? = some c → digitVal 10 c = none) :
    ∀ acc n, readDigits 10 (ds ++ rest) acc n
      = (acc * 10 ^ ds.length + positional ds, n + ds.length, rest) := by
  induction ds with
  | nil =>
    intro acc n
    cases rest with
    | nil => simp [readDigits, positional]
    | cons c cs =>
      have := hrest c rfl
      simp [readDigits, positional, this]
  | cons d ds ih =>
    intro acc n
    have hd := digitVal_digit d (hds d (List.mem_cons_self _ _))
    have hds2 : allDigits ds := fun c hc => hds c (List.mem_cons_of_mem _ hc)
    show readDigits 10 (d :: (ds ++ rest)) acc n = _
    rw [readDigits]
    simp only [hd]
    rw [ih hds2]
    simp only [positional, List.length_cons]
    rw [pow_succ]
    congr 1
    · ring
    · congr 1; omega

/-! ### Integers -/

theorem dropWhile_isspace_of_head (c : Nat) (cs : List Nat) (h : isspace c = false) :
    (c :: cs).dropWhile isspace = c :: cs := by
  simp [List.dropWhile, h]

theorem strtol_decimal (s : String) (z : Int) (h : IsDecimalInteger s z)
    (hlo : -(2 : Int) ^ 63 ≤ z) (hhi : z < (2 : Int) ^ 63) : strtol s = z := by
  obtain ⟨sign, digits, hne, hds, hcs, hz⟩ := h
  obtain ⟨d, ds, rfl⟩ : ∃ d ds, digits = d :: ds := by
    cases digits with
    | nil => exact absurd rfl hne
    | cons d ds => exact ⟨d, ds, rfl⟩
  have hd := hds d (List.mem_cons_self _ _)
  have hacc := accDigits_digits (d :: ds) hds 0
  simp only [zero_mul, zero_add] at hacc
  unfold strtol
  rw [hcs]
  cases sign with
  | absent =>
    simp only [Sign.chars, List.nil_append, Sign.factor, one_mul] at hz ⊢
    rw [dropWhile_isspace_of_head d ds (isspace_of_literal_char d (Or.inl hd))]
    have h45 : ¬ d = 45 := by omega
    have h43 : ¬ d = 43 := by omega
    simp only [h45, h43, if_false]
    rw [hacc, ← hz]
    exact min_eq_right (by omega)
  | plus =>
    simp only [Sign.chars, List.singleton_append, Sign.factor, one_mul] at hz ⊢
    rw [dropWhile_isspace_of_head 43 (d :: ds) (by decide)]
    simp only [show ¬ (43 : Nat) = 45 by decide, if_false, if_true]
    rw [hacc, ← hz]
    exact min_eq_right (by omega)
  | minus =>
    simp only [Sign.chars, List.singleton_append, Sign.factor] at hz ⊢
    rw [dropWhile_isspace_of_head 45 (d :: ds) (by decide)]
    simp only [if_true]
    rw [hacc]
    have : -((positional (d :: ds) : Nat) : Int) = z := by rw [hz]; ring
    rw [this]
    exact max_eq_right hlo

theorem toUint32_atoi_decimal (s : String) (z : Int) (h : IsDecimalInteger s z)
    (hlo : -(2 : Int) ^ 31 ≤ z) (hhi : z < (2 : Int) ^ 31) :
    toUint32 (atoi s) = twosComplement 32 z := by
  have hs := strtol_decimal s z h (by norm_num at hlo ⊢; omega) (by norm_num at hhi ⊢; omega)
  unfold atoi toUint32 twosComplement
  rw [hs]
  norm_num at hlo hhi ⊢
  split_ifs with h0
  · congr 1; omega
  · congr 1; omega

theorem toUint64_atol_decimal (s : String) (z : Int) (h : IsDecimalInteger s z)
    (hlo : -(2 : Int) ^ 63 ≤ z) (hhi : z < (2 : Int) ^ 63) :
    toUint64 (atol s) = twosComplement 64 z := by
  have hs := strtol_decimal s z h hlo hhi
  unfold atol toUint64 twosComplement
  rw [hs]
  norm_num at hlo hhi ⊢
  split_ifs with h0
  · congr 1; omega
  · congr 1; omega

/-! ### Decimal floating literals -/

theorem readDigits_all (ds : List Nat) (hds : allDigits ds) (acc n : Nat) :
    readDigits 10 ds acc n = (acc * 10 ^ ds.length + positional ds, n + ds.length, []) := by
  have := readDigits_digits ds hds [] (by simp) acc n
  simpa using this

theorem readExponent_literal (marker : Nat) (sign : Sign) (digits : List Nat)
    (hm : marker = 101 ∨ marker = 69) (hne : digits ≠ []) (hds : allDigits digits) :
    readExponent 101 (marker :: (sign.chars ++ digits))
      = sign.factor * (positional digits : Int) := by
  have hmark : tolower marker = 101 := by
    rcases hm with h | h <;> subst h <;> decide
  obtain ⟨d, ds, rfl⟩ : ∃ d ds, digits = d :: ds := by
    cases digits with
    | nil => exact absurd rfl hne
    | cons d ds => exact ⟨d, ds, rfl⟩
  have hd := hds d (List.mem_cons_self _ _)
  have hall := readDigits_all (d :: ds) hds 0 0
  simp only [zero_mul, zero_add] at hall
  cases sign with
  | absent =>
    have h45 : ¬ d = 45 := by omega
    have h43 : ¬ d = 43 := by omega
    simp only [Sign.chars, List.nil_append, readExponent, hmark, if_true, h45, h43, if_false,
      hall, Sign.factor, one_mul]
  | plus =>
    simp only [Sign.chars, List.singleton_append, readExponent, hmark, if_true,
      show ¬ (43 : Nat) = 45 by decide, if_false, hall, Sign.factor, one_mul]
    simp
  | minus =>
    simp only [Sign.chars, List.singleton_append, readExponent, hmark, if_true, hall,
      Sign.factor]
    simp

theorem readNumber_parts (f : FloatFormat) (ip fp : List Nat) (hasPoint : Bool) (ep : List Nat)
    (hip : allDigits ip) (hfp : allDigits fp) (hpoint : hasPoint = false → fp = [])
    (hne : ip ++ fp ≠ []) (hep : ∀ c, ep.head? = some c → c = 101 ∨ c = 69) :
    readNumber f 10 10 101 (ip ++ ((if hasPoint then 46 :: fp else []) ++ ep))
      = some (roundMagnitude f
          (positional (ip ++ fp) * 10 ^ (readExponent 101 ep).toNat)
          (10 ^ fp.length * 10 ^ (-(readExponent 101 ep)).toNat)) := by
  have hepd : ∀ c, ep.head? = some c → digitVal 10 c = none := by
    intro c hc
    rcases hep c hc with h | h
    · exact digitVal_nondigit c (Or.inr (Or.inl h))
    · exact digitVal_nondigit c (Or.inr (Or.inr (Or.inl h)))
  have hlen : ip.length + fp.length ≠ 0 := by
    intro h
    apply hne
    have h1 : ip.length = 0 := by omega
    have h2 : fp.length = 0 := by omega
    rw [List.length_eq_zero.mp h1, List.length_eq_zero.mp h2]
    rfl
  unfold readNumber
  cases hasPoint with
  | true =>
    simp only [if_true]
    rw [readDigits_digits ip hip ((46 :: fp) ++ ep) (by
      intro c hc
      simp at hc
      subst hc
      exact digitVal_nondigit 46 (Or.inl rfl))]
    simp only [List.cons_append, if_true, zero_mul, zero_add]
    rw [readDigits_digits fp hfp ep hepd]
    simp only [zero_add, hlen, if_false, positional_append]
  | false =>
    have hfp0 := hpoint rfl
    subst hfp0
    simp only [Bool.false_eq_true, if_false, List.nil_append]
    rw [readDigits_digits ip hip ep hepd]
    simp only [zero_mul, zero_add]
    cases ep with
    | nil =>
      simp only [List.length_nil, add_zero] at hlen
      simp [hlen, positional]
    | cons c cs =>
      have hc46 : ¬ c = 46 := by
        rcases hep c rfl with h | h <;> omega
      simp only [List.length_nil, add_zero] at hlen
      simp [hc46, hlen, positional]

/-- the digits and the exponent part of a literal, seen as a ratio of naturals -/
theorem literal_ratio (m nf : Nat) (ev : Int) :
    ((m * 10 ^ ev.toNat : Nat) : ℚ) / ((10 ^ nf * 10 ^ (-ev).toNat : Nat) : ℚ)
      = (m : ℚ) * (10 : ℚ) ^ (ev - (nf : Int)) := by
  have h10 : (10 : ℚ) ≠ 0 := by norm_num
  rw [zpow_sub₀ h10, zpow_natCast]
  rcases le_total 0 ev with hk | hk
  · obtain ⟨n, rfl⟩ := Int.eq_ofNat_of_zero_le hk
    have h1 : (-(n : Int)).toNat = 0 := by simp
    simp only [h1, Int.toNat_ofNat, pow_zero, mul_one, zpow_natCast]
    push_cast
    field_simp
  · obtain ⟨n, hn⟩ := Int.eq_ofNat_of_zero_le (neg_nonneg.mpr hk)
    have hk2 : ev = -(n : Int) := by omega
    subst hk2
    have h1 : (-(n : Int)).toNat = 0 := by simp
    simp only [neg_neg, Int.toNat_ofNat, h1, pow_zero, mul_one, zpow_neg, zpow_natCast]
    push_cast
    field_simp
    left
    ring

/-- the characters a decimal literal is made of -/
theorem tolower_literal_char (c : Nat)
    (h : (48 ≤ c ∧ c ≤ 57) ∨ c = 46 ∨ c = 101 ∨ c = 69 ∨ c = 43 ∨ c = 45) :
    tolower c ≠ 105 ∧ tolower c ≠ 110 ∧ tolower c ≠ 120 := by
  rcases h with h | h | h | h | h | h
  · have hno : ¬ (65 ≤ c ∧ c ≤ 90) := by omega
    simp only [tolower, hno, if_false]
    omega
  all_goals (subst h; decide)

theorem startsWithCI_head (p0 : Nat) (ps : List Nat) (c : Nat) (cs : List Nat)
    (h : tolower c ≠ p0) : startsWithCI (p0 :: ps) (c :: cs) = false := by
  simp [startsWithCI, h]

theorem startsWithCI_second (p0 p1 c0 : Nat) (cs : List Nat)
    (h : ∀ c1, cs.head? = some c1 → tolower c1 ≠ p1) :
    startsWithCI [p0, p1] (c0 :: cs) = false := by
  cases cs with
  | nil => simp [startsWithCI]
  | cons c1 rest =>
    have := h c1 rfl
    simp [startsWithCI, this]

/-- on a non-empty list of literal characters `strtodMagnitude` reads a decimal number -/
theorem strtodMagnitude_literal (f : FloatFormat) (cs : List Nat) (hne : cs ≠ [])
    (hall : ∀ c ∈ cs, (48 ≤ c ∧ c ≤ 57) ∨ c = 46 ∨ c = 101 ∨ c = 69 ∨ c = 43 ∨ c = 45) :
    strtodMagnitude f cs = readNumber f 10 10 101 cs := by
  obtain ⟨c0, rest, rfl⟩ : ∃ c0 rest, cs = c0 :: rest := by
    cases cs with
    | nil => exact absurd rfl hne
    | cons c0 rest => exact ⟨c0, rest, rfl⟩
  have h0 := tolower_literal_char c0 (hall c0 (List.mem_cons_self _ _))
  have h1 : startsWithCI [105, 110, 102] (c0 :: rest) = false :=
    startsWithCI_head 105 _ c0 rest h0.1
  have h2 : startsWithCI [110, 97, 110] (c0 :: rest) = false :=
    startsWithCI_head 110 _ c0 rest h0.2.1
  have h3 : startsWithCI [48, 120] (c0 :: rest) = false := by
    apply startsWithCI_second
    intro c1 hc1
    have hmem : c1 ∈ c0 :: rest := by
      cases rest with
      | nil => simp at hc1
      | cons r rs =>
        simp at hc1
        subst hc1
        simp
    exact (tolower_literal_char c1 (hall c1 hmem)).2.2
  unfold strtodMagnitude
  simp [h1, h2, h3]

/-- the exponent part of a literal, as characters -/
theorem literal_chars_eq (lit : DecimalLiteral) :
    lit.chars = lit.sign.chars ++ (lit.intDigits
      ++ ((if lit.fracDigits.isSome then 46 :: lit.frac else [])
        ++ (match lit.exponent with
            | none => []
            | some (marker, sign, digits) => marker :: (sign.chars ++ digits)))) := by
  unfold DecimalLiteral.chars DecimalLiteral.frac
  cases lit.fracDigits <;> cases lit.exponent <;> simp

theorem sign_chars_literal (sign : Sign) :
    ∀ c ∈ sign.chars, (48 ≤ c ∧ c ≤ 57) ∨ c = 46 ∨ c = 101 ∨ c = 69 ∨ c = 43 ∨ c = 45 := by
  intro c hc
  cases sign <;> simp [Sign.chars] at hc <;> subst hc <;> simp

theorem atof_literal (s : String) (lit : DecimalLiteral) (hwf : lit.WellFormed)
    (hcs : cstr s = lit.chars) :
    atof s = lit.sign.bit 63 + roundMagnitude binary64
      (positional (lit.intDigits ++ lit.frac) * 10 ^ lit.exponentValue.toNat)
      (10 ^ lit.frac.length * 10 ^ (-lit.exponentValue).toNat) := by
  obtain ⟨hip, hfp, hne, hexp⟩ := hwf
  -- the exponent part
  set ep : List Nat := (match lit.exponent with
    | none => []
    | some (marker, sign, digits) => marker :: (sign.chars ++ digits)) with hepdef
  have hephead : ∀ c, ep.head? = some c → c = 101 ∨ c = 69 := by
    intro c hc
    rw [hepdef] at hc
    rcases hlit : lit.exponent with _ | ⟨marker, sign, digits⟩
    · rw [hlit] at hc; simp at hc
    · rw [hlit] at hc
      simp at hc
      subst hc
      exact (hexp _ sign digits hlit).1
  have hepval : readExponent 101 ep = lit.exponentValue := by
    rw [hepdef]
    unfold DecimalLiteral.exponentValue
    rcases hlit : lit.exponent with _ | ⟨marker, sign, digits⟩
    · simp [readExponent]
    · obtain ⟨hm, hdne, hdd⟩ := hexp marker sign digits hlit
      simp only
      exact readExponent_literal marker sign digits hm hdne hdd
  have hepall : ∀ c ∈ ep, (48 ≤ c ∧ c ≤ 57) ∨ c = 46 ∨ c = 101 ∨ c = 69 ∨ c = 43 ∨ c = 45 := by
    intro c hc
    rw [hepdef] at hc
    rcases hlit : lit.exponent with _ | ⟨marker, sign, digits⟩
    · rw [hlit] at hc; simp at hc
    · obtain ⟨hm, hdne, hdd⟩ := hexp marker sign digits hlit
      rw [hlit] at hc
      simp only [List.mem_cons, List.mem_append] at hc
      rcases hc with h | h | h
      · subst h
        rcases hm with h | h
        · right; right; left; exact h
        · right; right; right; left; exact h
      · exact sign_chars_literal sign c h
      · exact Or.inl (hdd c h)
  have hpoint : lit.fracDigits.isSome = false → lit.frac = [] := by
    intro h
    unfold DecimalLiteral.frac
    cases hfd : lit.fracDigits with
    | none => rfl
    | some fs => rw [hfd] at h; simp at h
  set body : List Nat := lit.intDigits
      ++ ((if lit.fracDigits.isSome then 46 :: lit.frac else []) ++ ep) with hbody
  have hchars : cstr s = lit.sign.chars ++ body := by
    rw [hcs, literal_chars_eq]
  have hbodyall : ∀ c ∈ body,
      (48 ≤ c ∧ c ≤ 57) ∨ c = 46 ∨ c = 101 ∨ c = 69 ∨ c = 43 ∨ c = 45 := by
    intro c hc
    rw [hbody] at hc
    simp only [List.mem_append] at hc
    rcases hc with h | h | h
    · exact Or.inl (hip c h)
    · by_cases hs : lit.fracDigits.isSome
      · simp only [hs, if_true, List.mem_cons] at h
        rcases h with h | h
        · right; left; exact h
        · exact Or.inl (hfp c h)
      · simp [hs] at h
    · exact hepall c h
  have hbodyne : body ≠ [] := by
    intro h
    rw [hbody] at h
    simp only [List.append_eq_nil] at h
    apply hne
    have h1 := h.1
    have h2 : lit.frac = [] := by
      by_cases hs : lit.fracDigits.isSome
      · have := h.2.1
        simp [hs] at this
      · exact hpoint (by simpa using hs)
    rw [h1, h2]
    rfl
  have hread : strtodMagnitude binary64 body = some (roundMagnitude binary64
      (positional (lit.intDigits ++ lit.frac) * 10 ^ lit.exponentValue.toNat)
      (10 ^ lit.frac.length * 10 ^ (-lit.exponentValue).toNat)) := by
    rw [strtodMagnitude_literal binary64 body hbodyne hbodyall, hbody,
      readNumber_parts binary64 lit.intDigits lit.frac lit.fracDigits.isSome ep hip hfp hpoint
        hne hephead, hepval]
  obtain ⟨c0, rest, hc0⟩ : ∃ c0 rest, body = c0 :: rest := by
    cases hb : body with
    | nil => exact absurd hb hbodyne
    | cons c0 rest => exact ⟨c0, rest, rfl⟩
  have hc0first : (48 ≤ c0 ∧ c0 ≤ 57) ∨ c0 = 46 := by
    have hmem : c0 ∈ body := by rw [hc0]; exact List.mem_cons_self _ _
    rw [hbody] at hc0
    cases hi : lit.intDigits with
    | nil =>
      rw [hi] at hc0
      have hfne : lit.frac ≠ [] := by
        intro hf
        apply hne
        rw [hi, hf]
        rfl
      have hs : lit.fracDigits.isSome = true := by
        by_contra hcon
        exact hfne (hpoint (by simpa using hcon))
      simp only [hs, if_true, List.nil_append, List.cons_append, List.cons.injEq] at hc0
      right
      exact hc0.1.symm
    | cons d ds =>
      rw [hi] at hc0
      simp only [List.cons_append, List.cons.injEq] at hc0
      left
      rw [← hc0.1]
      exact hip d (by rw [hi]; exact List.mem_cons_self _ _)
  have hsign : binary64.signBit = 2 ^ 63 := by
    simp [FloatFormat.signBit, binary64]
  unfold atof
  rw [hchars, hc0]
  rw [hc0] at hread
  cases hsg : lit.sign with
  | absent =>
    simp only [Sign.chars, List.nil_append, Sign.bit, zero_add]
    rw [dropWhile_isspace_of_head c0 rest (isspace_of_literal_char c0 (by
      rcases hc0first with h | h
      · exact Or.inl h
      · right; right; right; exact h))]
    have h45 : ¬ c0 = 45 := by rcases hc0first with h | h <;> omega
    have h43 : ¬ c0 = 43 := by rcases hc0first with h | h <;> omega
    simp only [h45, h43, if_false, hread, Option.getD_some]
  | plus =>
    simp only [Sign.chars, List.singleton_append, Sign.bit, zero_add]
    rw [dropWhile_isspace_of_head 43 (c0 :: rest) (by decide)]
    simp only [show ¬ (43 : Nat) = 45 by decide, if_false, if_true, hread, Option.getD_some]
  | minus =>
    simp only [Sign.chars, List.singleton_append, Sign.bit]
    rw [dropWhile_isspace_of_head 45 (c0 :: rest) (by decide)]
    simp only [if_true, hread, hsign]

theorem atof_literal_nearest (s : String) (lit : DecimalLiteral) (hwf : lit.WellFormed)
    (hcs : cstr s = lit.chars) :
    ∃ b : Nat, atof s = lit.sign.bit 63 + b ∧ binary64.IsNearestEven lit.magnitude b := by
  refine ⟨_, atof_literal s lit hwf hcs, ?_⟩
  have h := roundMagnitude_nearest binary64 (by decide)
    (positional (lit.intDigits ++ lit.frac) * 10 ^ lit.exponentValue.toNat)
    (10 ^ lit.frac.length * 10 ^ (-lit.exponentValue).toNat) (by positivity)
  rw [literal_ratio] at h
  exact h

theorem toFloat32_nearest (sign : Sign) (b : Nat) (hb : b ≤ binary64.infBits) :
    ∃ b32 : Nat, toFloat32 (sign.bit 63 + b) = sign.bit 31 + b32
      ∧ binary32.IsNearestEven (binary64.decode b) b32 := by
  have hinf : binary64.infBits = 2047 * 2 ^ 52 := by simp [FloatFormat.infBits, binary64]
  have hsb : binary32.signBit = 2 ^ 31 := by simp [FloatFormat.signBit, binary32]
  rw [hinf] at hb
  have hmu : binary64.minUlpExp = -1074 := by simp [FloatFormat.minUlpExp, binary64]
  have hM : binary64.mantBits = 52 := rfl
  -- the three fields of the pattern
  have hfields : (sign.bit 63 + b) / 2 ^ 63 % 2 * 2 ^ 31 = sign.bit 31
      ∧ (sign.bit 63 + b) / 2 ^ 52 % 2 ^ 11 = b / 2 ^ 52
      ∧ (sign.bit 63 + b) % 2 ^ 52 = b % 2 ^ 52 := by
    cases sign <;> simp only [Sign.bit] <;> norm_num at hb ⊢ <;> omega
  obtain ⟨hf1, hf2, hf3⟩ := hfields
  unfold toFloat32
  simp only [hf2, hf3, hsb, hf1]
  by_cases hE : b / 2 ^ 52 = 2047
  · have hbeq : b = 2047 * 2 ^ 52 := by
      norm_num at hb hE ⊢; omega
    have hm0 : b % 2 ^ 52 = 0 := by
      rw [hbeq]; norm_num
    simp only [hE, if_true, hm0]
    refine ⟨_, rfl, ?_⟩
    apply nearest_inf
    rw [hbeq, ← hinf]
    exact decode_inf_binary32_le
  · simp only [hE, if_false]
    by_cases hE0 : b / 2 ^ 52 = 0
    · simp only [hE0, if_true]
      refine ⟨_, rfl, ?_⟩
      have h := roundMagnitude_nearest binary32 (by decide) (b % 2 ^ 52) (2 ^ 1074)
        (by positivity)
      have hval : binary64.decode b = ((b % 2 ^ 52 : Nat) : ℚ) / ((2 ^ 1074 : Nat) : ℚ) := by
        unfold FloatFormat.decode
        rw [hM, hmu]
        simp only [hE0, if_true]
        rw [zpow_neg, div_eq_mul_inv]
        norm_cast
      rw [hval]
      exact h
    · simp only [hE0, if_false]
      refine ⟨_, rfl, ?_⟩
      have h := roundMagnitude_nearest binary32 (by decide)
        ((2 ^ 52 + b % 2 ^ 52) * 2 ^ (b / 2 ^ 52 - 1075)) (2 ^ (1075 - b / 2 ^ 52))
        (by positivity)
      have hratio := scaled_ratio (2 ^ 52 + b % 2 ^ 52) 1 (1075 - ((b / 2 ^ 52 : Nat) : Int))
      have hk1 : (-(1075 - ((b / 2 ^ 52 : Nat) : Int))).toNat = b / 2 ^ 52 - 1075 := by omega
      have hk2 : (1075 - ((b / 2 ^ 52 : Nat) : Int)).toNat = 1075 - b / 2 ^ 52 := by omega
      rw [hk1, hk2, one_mul] at hratio
      have hval : binary64.decode b = (((2 ^ 52 + b % 2 ^ 52) * 2 ^ (b / 2 ^ 52 - 1075) : Nat) : ℚ)
          / ((2 ^ (1075 - b / 2 ^ 52) : Nat) : ℚ) := by
        rw [hratio]
        unfold FloatFormat.decode
        rw [hM, hmu]
        simp only [hE0, if_false]
        have hexp : ((b / 2 ^ 52 : Nat) : Int) - 1 + -1074
            = -(1075 - ((b / 2 ^ 52 : Nat) : Int)) := by ring
        rw [hexp, zpow_neg]
        simp only [Nat.cast_one, div_one, div_eq_mul_inv, inv_inv, inv_one, mul_one]
      rw [hval]
      exact h

/-! ## Explicit-name marshaling -/

theorem setUpArguments_explicit (host : Host) (moduleInstance : ModuleInstance) (file name : String)
    (functionType : FunctionType) (args : List String)
    (hlen : args.length ≤ functionType.parameters.length) :
    setUpArguments host moduleInstance file (some name) functionType args =
      .ready (List.zipWith parseValue functionType.parameters args) [] := by
  have h := marshalExplicit_eq functionType.parameters args 0 [] (by omega)
  simp only [List.drop_zero, List.nil_append] at h
  simp [setUpArguments, h]

theorem zipWith_parseValue_getElem (parameters : List ValueType) (args : List String) (i : Nat)
    (type : ValueType) (arg : String)
    (hp : parameters[i]? = some type) (ha : args[i]? = some arg) :
    (List.zipWith parseValue parameters args)[i]? = some (parseValue type arg) :=
  List.getElem?_zipWith_eq_some.mpr ⟨type, arg, hp, ha, rfl⟩

theorem atoi_forty_two : toUint32 (atoi "42") = 42 := by decide

theorem atof_three_and_a_half : atof "3.5" = 0x400C000000000000 := by decide

/-- The payload of `nan(n-char-sequence)` is kept, as the GNU C library does, and survives
the narrowing to `float32` in its upper bits. -/
theorem atof_nan_payload :
    atof "nan(1)" = 0x7FF8000000000001
      ∧ atof "nan" = 0x7FF8000000000000
      ∧ toFloat32 (atof "nan(0x4000000000000)") = 0x7FE00000 := by
  decide

/-- C10: in the explicit-name convention, with as many argument strings as
declared parameters, the set-up succeeds with a list of that same length whose
i-th value has the i-th declared kind and carries the number its string
denotes. For a base-10 integer `z` (optional sign, digits) the value of an i32
parameter is the 32-bit two's complement pattern of `z` when `z` fits 32 bits,
that of an i64 parameter the 64-bit pattern when `z` fits 64 bits. For a
decimal floating literal the value of an f64 parameter is the sign of the
literal over the binary64 pattern nearest to its magnitude (ties to even),
that of an f32 parameter the sign over the binary32 pattern nearest to that
binary64 number. For the kinds i32, f64 and the strings `42`, `3.5` the list is
i32 42 followed by the f64 of pattern 0x400C000000000000, which stands for 7/2. -/
theorem marshal_explicit_values (host : Host) (moduleInstance : ModuleInstance)
    (file name : String) (ret : ResultType) (parameters : List ValueType) (args : List String)
    (hlen : args.length = parameters.length) :
    (∃ invokeArgs : List Value,
        setUpArguments host moduleInstance file (some name) ⟨ret, parameters⟩ args
            = .ready invokeArgs []
          ∧ invokeArgs.length = parameters.length
          ∧ ∀ (i : Nat) (type : ValueType) (arg : String),
              parameters[i]? = some type → args[i]? = some arg →
              ∃ value : Value, invokeArgs[i]? = some value ∧ value.type = type
                ∧ (∀ z : Int, IsDecimalInteger arg z →
                    (type = .i32 → -(2 : Int) ^ 31 ≤ z → z < (2 : Int) ^ 31 →
                        value = .i32 (twosComplement 32 z))
                      ∧ (type = .i64 → -(2 : Int) ^ 63 ≤ z → z < (2 : Int) ^ 63 →
                        value = .i64 (twosComplement 64 z)))
                ∧ (∀ lit : DecimalLiteral, lit.WellFormed → cstr arg = lit.chars →
                    (type = .f64 →
                        ∃ b : Nat, binary64.IsNearestEven lit.magnitude b
                          ∧ value = .f64 (lit.sign.bit 63 + b))
                      ∧ (type = .f32 →
                        ∃ b64 b32 : Nat, binary64.IsNearestEven lit.magnitude b64
                          ∧ binary32.IsNearestEven (binary64.decode b64) b32
                          ∧ value = .f32 (lit.sign.bit 31 + b32))))
      ∧ setUpArguments host moduleInstance file (some name) ⟨ret, [.i32, .f64]⟩ ["42", "3.5"]
          = .ready [.i32 42, .f64 0x400C000000000000] []
      ∧ binary64.decode 0x400C000000000000 = 7 / 2 := by
  refine ⟨?_, ?_, decode_three_and_a_half⟩
  · refine ⟨List.zipWith parseValue parameters args, ?_, ?_, ?_⟩
    · exact setUpArguments_explicit host moduleInstance file name ⟨ret, parameters⟩ args
        (le_of_eq hlen)
    · simp [hlen]
    · intro i type arg hp ha
      refine ⟨parseValue type arg, zipWith_parseValue_getElem parameters args i type arg hp ha,
        ?_, ?_, ?_⟩
      · cases type <;> rfl
      · intro z hz
        constructor
        · intro ht hlo hhi
          subst ht
          simp only [parseValue]
          rw [toUint32_atoi_decimal arg z hz hlo hhi]
        · intro ht hlo hhi
          subst ht
          simp only [parseValue]
          rw [toUint64_atol_decimal arg z hz hlo hhi]
      · intro lit hwf hcs
        obtain ⟨b, hb, hnear⟩ := atof_literal_nearest arg lit hwf hcs
        constructor
        · intro ht
          subst ht
          exact ⟨b, hnear, by simp only [parseValue, hb]⟩
        · intro ht
          subst ht
          obtain ⟨b32, h32, hn32⟩ := toFloat32_nearest lit.sign b hnear.1
          exact ⟨b, b32, hnear, hn32, by simp only [parseValue, hb, h32]⟩
  · rw [setUpArguments_explicit host moduleInstance file name ⟨ret, [.i32, .f64]⟩ ["42", "3.5"]
      (by simp)]
    simp [parseValue, atoi_forty_two, atof_three_and_a_half]

/-- Witness of C10: for the signature `(i32, f64) -> none` and the strings `-1`
and `1e3`, the first value is the i32 of all ones, and the second is the f64
nearest to the magnitude of the literal `1e3`. -/
theorem marshal_explicit_values_witness :
    ∃ invokeArgs : List Value,
      setUpArguments (exampleHost instanceNamed) instanceNamed "prog.wasm" (some "g")
          ⟨.none, [.i32, .f64]⟩ ["-1", "1e3"] = .ready invokeArgs []
        ∧ (∃ value : Value, invokeArgs[0]? = some value
            ∧ value = .i32 (twosComplement 32 (-1)))
        ∧ (∃ (value : Value) (b : Nat), invokeArgs[1]? = some value
            ∧ binary64.IsNearestEven
                (DecimalLiteral.mk .absent [49] none (some (101, .absent, [51]))).magnitude b
            ∧ value = .f64 b) :=
  match (marshal_explicit_values (exampleHost instanceNamed) instanceNamed "prog.wasm" "g"
      .none [.i32, .f64] ["-1", "1e3"] rfl).1 with
  | ⟨invokeArgs, hready, _, hvalues⟩ =>
    ⟨invokeArgs, hready,
      (match hvalues 0 .i32 "-1" rfl rfl with
       | ⟨value, hvalue, _, hint, _⟩ =>
         ⟨value, hvalue,
           (hint (-1) ⟨.minus, [49], by simp, by simp [allDigits], by decide,
             by simp [Sign.factor, positional]⟩).1 rfl (by norm_num) (by norm_num)⟩),
      (match hvalues 1 .f64 "1e3" rfl rfl with
       | ⟨value, hvalue, _, _, hfloat⟩ =>
         match (hfloat (DecimalLiteral.mk .absent [49] none (some (101, .absent, [51])))
             ⟨by simp [allDigits], by simp [allDigits, DecimalLiteral.frac],
               by simp, by
                 intro marker sign digits h
                 simp at h
                 obtain ⟨h1, h2, h3⟩ := h
                 subst h1 h2 h3
                 simp [allDigits]⟩
             (by decide)).1 rfl with
         | ⟨b, hnear, hb⟩ => ⟨value, b, hvalue, hnear, by simpa [Sign.bit] using hb⟩)⟩

/-- C2 fails on the code: the i32 parameter of `f` is given the string `abc`,
which has no leading integer; `mainBody` reports no parse error, it invokes `f`
with the value 0 and returns `EXIT_SUCCESS`, not `EXIT_FAILURE`. -/
theorem parse_error_counterexample :
    hasLeadingInteger "abc" = false
      ∧ mainBody (exampleHost instanceNamed) (some "prog.wasm") (some "f") false ["abc"] =
          ⟨.returned EXIT_SUCCESS,
            [.initInstance {} instanceNamed,
             .invokeFunction (exampleFunction 5 [.i32] .i32) [.i32 0],
             .logTimer "Invoked function",
             .log .debug "f returned: result\n"]⟩
      ∧ (mainBody (exampleHost instanceNamed) (some "prog.wasm") (some "f") false
          ["abc"]).outcome ≠ .returned EXIT_FAILURE
      ∧ (mainBody (exampleHost instanceNamed) (some "prog.wasm") (some "f") false
          ["abc"]).invoked = true := by
  decide

/-- C2 as amended: in the explicit-name convention, with as many argument
strings as declared parameters, marshaling never fails on the text of an
argument: at a position of kind i32 (i64) the value is `(uint32)atoi`
(`(uint64)atol`) of the string, whatever the string, and it is 0 when the
string has no decimal digit after optional white space and an optional sign;
the function is then invoked with the marshaled list. -/
theorem marshal_explicit_integers_never_fail (host : Host) (file name : String)
    (args : List String) (module : Module) (moduleInstance : ModuleInstance)
    (f : FunctionInstance)
    (hload : host.loadModule file = some module)
    (hlink : host.linkAndInstantiateModule module (RootResolver.resolve host rootResolver)
      = some moduleInstance)
    (hsel : lookupFunction moduleInstance (some name) = .ok f)
    (hlen : args.length = f.type.parameters.length) :
    ∃ invokeArgs : List Value,
      setUpArguments host moduleInstance file (some name) f.type args = .ready invokeArgs []
        ∧ Event.invokeFunction f invokeArgs
            ∈ (mainBody host (some file) (some name) false args).events
        ∧ ∀ (i : Nat) (arg : String), args[i]? = some arg →
            (f.type.parameters[i]? = some .i32 →
                invokeArgs[i]? = some (.i32 (toUint32 (atoi arg)))
                  ∧ (hasLeadingInteger arg = false → invokeArgs[i]? = some (.i32 0)))
              ∧ (f.type.parameters[i]? = some .i64 →
                invokeArgs[i]? = some (.i64 (toUint64 (atol arg)))
                  ∧ (hasLeadingInteger arg = false → invokeArgs[i]? = some (.i64 0))) := by
  have hready := setUpArguments_explicit host moduleInstance file name f.type args (le_of_eq hlen)
  refine ⟨List.zipWith parseValue f.type.parameters args, hready, ?_, ?_⟩
  · rw [mainBody_reached host file (some name) args module moduleInstance f hload hlink hsel]
    exact (callFunction_ready_events host module moduleInstance file (some name) f args _ _
      hready).2
  · intro i arg ha
    constructor
    · intro hp
      have hv := zipWith_parseValue_getElem f.type.parameters args i .i32 arg hp ha
      refine ⟨hv, fun hno => ?_⟩
      rw [hv]
      simp [parseValue, atoi_eq_zero arg hno]
    · intro hp
      have hv := zipWith_parseValue_getElem f.type.parameters args i .i64 arg hp ha
      refine ⟨hv, fun hno => ?_⟩
      rw [hv]
      simp [parseValue, atol_eq_zero arg hno]

/-- Witness of C2 as amended: `f : (i32) -> i32` run by name with the string
`12abc` is invoked with the i32 value 12. -/
theorem marshal_explicit_integers_never_fail_witness :
    ∃ invokeArgs : List Value,
      Event.invokeFunction (exampleFunction 5 [.i32] .i32) invokeArgs
          ∈ (mainBody (exampleHost instanceNamed) (some "prog.wasm") (some "f") false
              ["12abc"]).events
        ∧ invokeArgs[0]? = some (.i32 12) :=
  match marshal_explicit_integers_never_fail (exampleHost instanceNamed) "prog.wasm" "f"
      ["12abc"] {} instanceNamed (exampleFunction 5 [.i32] .i32) rfl rfl rfl rfl with
  | ⟨invokeArgs, _, hinvoked, hvalues⟩ =>
    ⟨invokeArgs, hinvoked, ((hvalues 0 "12abc" rfl).1 rfl).1.trans (by decide)⟩

/-- C1 fails on the code: `f` declares one parameter and is run by name with
the two strings `1` and `2`; `mainBody` does not return `EXIT_FAILURE`, its
loop reads `functionType->parameters[1]`, past the end of the vector. With
one string for the two parameters of `g` nothing is reported either:
`invokeFunction` is called with the short list (and raises in the example host). -/
theorem explicit_arity_overrun :
    mainBody (exampleHost instanceNamed) (some "prog.wasm") (some "f") false ["1", "2"] =
        ⟨.outOfBounds 1, [.initInstance {} instanceNamed]⟩
      ∧ (mainBody (exampleHost instanceNamed) (some "prog.wasm") (some "f") false
          ["1", "2"]).outcome ≠ .returned EXIT_FAILURE
      ∧ mainBody (exampleHost instanceNamed) (some "prog.wasm") (some "g") false ["42"] =
          ⟨.exception,
            [.initInstance {} instanceNamed,
             .invokeFunction (exampleFunction 6 [.i32, .f64] .none) [.i32 42]]⟩ := by
  decide

end Wavm
